import Mathlib

/-!
# Offset extractor (`experimentation/experiment0/offset_extractor.c`)

A shallow embedding of `offset_collector`: the chunked scan of the input
stream, the running byte offset `fileoff`, the index buffer `offset` with its
write cursor `mover`, and the writes to the output stream `downstream`.

Bytes are natural numbers below 256.  The index buffer is a list of
`10000000` bytes; an access outside it is a `Fault`, since C gives it no
meaning.  Unsigned 64-bit arithmetic is taken modulo `2 ^ 64`.

The source does not initialise the index buffer: `collectOn` takes the bytes
that `malloc` leaves in the block as a parameter, and `collectWith` and
`offset_collector` are the runs on a zero-filled block.
-/

namespace OffsetExtractor

/-! ## Constants of the source -/

/-- Size of the index buffer, `malloc (10000000)` (line 20). -/
def CAP : Nat := 10000000

/-- Bound of the flush check `strlen(offset) > 9999990` (line 45). -/
def THRESH : Nat := 9999990

/-- Chunk size `const int SIZE = 0x32000` (line 13). -/
def SIZE : Nat := 0x32000

/-- The byte `'\n'`. -/
def NL : Nat := 10

/-- The byte `','`. -/
def COMMA : Nat := 44

/-- The value `-1` converted to `uint64_t`, as in `length == -1` (line 36). -/
def MINUS_ONE : Nat := 2 ^ 64 - 1

/-! ## C library functions -/

/-- Accesses to the index buffer that C leaves undefined. -/
inductive Fault where
  /-- A write through `mover` past the end of the allocation. -/
  | overrun
  /-- A `strlen` that finds no NUL inside the allocation. -/
  | overread
  /-- Use of the NULL pointer returned by a failed `malloc`. -/
  | nullDeref
  deriving DecidableEq, Repr

/-- Length of the C string starting at the head of `mem`: the number of bytes
before the first NUL, or `none` when there is no NUL before the end. -/
def strlen : List Nat → Option Nat
  | [] => none
  | b :: bs => if b = 0 then some 0 else
      match strlen bs with
      | none => none
      | some n => some (n + 1)

/-- Store `bytes` at index `pos` of the index buffer `mem`; a fault when they
do not fit in its `CAP` bytes. -/
def writeAt (mem : List Nat) (pos : Nat) (bytes : List Nat) : Except Fault (List Nat) :=
  if pos + bytes.length ≤ CAP then
    .ok (mem.take pos ++ (bytes ++ mem.drop (pos + bytes.length)))
  else .error Fault.overrun

/-- Decimal digits of `n` as ASCII bytes, most significant first, accumulated
in front of `acc`; `fuel` bounds the number of digits. -/
def decimalAux : Nat → Nat → List Nat → List Nat
  | 0, _, acc => acc
  | fuel + 1, n, acc =>
      if n < 10 then (48 + n) :: acc
      else decimalAux fuel (n / 10) ((48 + n % 10) :: acc)

/-- Decimal ASCII text of a natural number, without leading zeros. -/
def decimal (n : Nat) : List Nat := decimalAux (n + 1) n []

/-- Text printed by the conversion `%lld` for the 64-bit value `i`: the
argument is read as a signed `long long`. -/
def fmtLLD (i : Nat) : List Nat :=
  if i < 2 ^ 63 then decimal i else 45 :: decimal (2 ^ 64 - i)

/-- Bytes stored by `snprintf(mover, 20, "%lld", i)`: at most 19 characters
of the text and a terminating NUL. -/
def snprintf20 (i : Nat) : List Nat := (fmtLLD i).take 19 ++ [0]

/-! ## Program state -/

/-- The variables of `offset_collector` that the scan reads and writes. -/
structure State where
  /-- Contents of the index buffer `offset`. -/
  offset : List Nat
  /-- The write cursor, as the index `mover - offset`. -/
  mover : Nat
  /-- The running byte offset `fileoff`. -/
  fileoff : Nat
  /-- Bytes written so far to `downstream` (`offset_final.txt`). -/
  downstream : List Nat
  /-- How many times `printf("This is wrong here")` has run. -/
  wrongHere : Nat
  deriving DecidableEq, Repr

/-- State at line 35 when the block returned by `malloc (10000000)` is
zero-filled (a fresh allocation of this size is usually served by zeroed
pages); `State.initOn` is the state for any content of the block. -/
def State.init : State :=
  { offset := List.replicate CAP 0, mover := 0, fileoff := 0, downstream := [], wrongHere := 0 }

/-- State at line 35 when the block returned by `malloc (10000000)` holds the
bytes `block`: lines 20-21 store nothing in the block, and line 45 reads it. -/
def State.initOn (block : List Nat) : State :=
  { offset := block, mover := 0, fileoff := 0, downstream := [], wrongHere := 0 }

/-- Lines 55-59: the body of `if (*buffptr++ == '\n')`. -/
def appendOffset (st : State) : Except Fault State :=
  let i := (st.fileoff + 1) % 2 ^ 64
  match writeAt st.offset st.mover (snprintf20 i) with
  | .error e => .error e
  | .ok mem1 =>
    match strlen (mem1.drop st.mover) with
    | none => .error Fault.overread
    | some l =>
      match writeAt mem1 (st.mover + l) [COMMA] with
      | .error e => .error e
      | .ok mem2 => .ok { st with offset := mem2, mover := st.mover + l + 1 }

/-- Lines 52-62: the loop `while (lencount--)` over the bytes of one chunk. -/
def scanChunk : List Nat → State → Except Fault State
  | [], st => .ok st
  | b :: bs, st =>
      if b = NL then
        match appendOffset st with
        | .error e => .error e
        | .ok st1 => scanChunk bs { st1 with fileoff := (st1.fileoff + 1) % 2 ^ 64 }
      else scanChunk bs { st with fileoff := (st.fileoff + 1) % 2 ^ 64 }

/-- Lines 46-49, with `n` the value of `strlen(offset)`: the `fwrite` of `n`
bytes, the `memset` of 10 bytes, the reset of `mover`, the `printf`. -/
def flush (st : State) (n : Nat) : State :=
  { st with
    downstream := st.downstream ++ st.offset.take n
    offset := List.replicate 10 0 ++ st.offset.drop 10
    mover := 0
    wrongHere := st.wrongHere + 1 }

/-- Lines 45-50: the flush check at the head of every iteration. -/
def flushCheck (st : State) : Except Fault State :=
  match strlen st.offset with
  | none => .error Fault.overread
  | some n => if n > THRESH then .ok (flush st n) else .ok st

/-! ## Input stream -/

/-- The input stream: the bytes it can still deliver, and whether the read
that runs past them fails with an I/O error instead of reaching end-of-file. -/
structure Stream where
  data : List Nat
  broken : Bool
  deriving DecidableEq, Repr

/-- What a call of `fread` leaves in the stream indicators. -/
inductive ReadStatus where
  | full
  | endOfFile
  | ioError
  deriving DecidableEq, Repr

/-- Result of `fread(buff, 1, size, stream)`: the bytes stored in `buff`
(their number is the return value), the indicator, and the stream after. -/
def fread (size : Nat) (s : Stream) : List Nat × ReadStatus × Stream :=
  let chunk := s.data.take size
  let status :=
    if chunk.length = size then ReadStatus.full
    else if s.broken then ReadStatus.ioError else ReadStatus.endOfFile
  (chunk, status, { s with data := s.data.drop size })

/-! ## The procedure -/

/-- How a run of `offset_collector` ends. -/
inductive Outcome where
  /-- Line 74 reached: the final state; `main` returns 0. -/
  | done (st : State)
  /-- Lines 37-38: `Error reading file`, `exit(1)`. -/
  | readAbort (st : State)
  /-- Lines 27-28: `Can't get enough memory`, `exit(1)`. -/
  | allocAbort
  /-- Undefined behaviour. -/
  | fault (f : Fault)
  /-- The iteration bound of the model was used up. -/
  | outOfFuel
  deriving DecidableEq, Repr

/-- Lines 66-74: the write of `strlen(offset)` bytes after the loop, and the
return. -/
def finalWrite (st : State) : Outcome :=
  match strlen st.offset with
  | none => Outcome.fault Fault.overread
  | some n => Outcome.done { st with downstream := st.downstream ++ st.offset.take n }

/-- Lines 35-64: the loop `do ... while (length)` with chunk size `size`,
followed by lines 66-74; `fuel` bounds the number of iterations. -/
def scanLoop (size : Nat) : Nat → Stream → State → Outcome
  | 0, _, _ => Outcome.outOfFuel
  | fuel + 1, s, st =>
      let r := fread size s
      let length := r.1.length % 2 ^ 64
      if length = MINUS_ONE then Outcome.readAbort st
      else
        match flushCheck st with
        | .error e => Outcome.fault e
        | .ok st1 =>
          match scanChunk (r.1.take length) st1 with
          | .error e => Outcome.fault e
          | .ok st2 => if length = 0 then finalWrite st2 else scanLoop size fuel r.2.2 st2

/-- What `offset_collector` is given by its environment. -/
structure Sys where
  /-- Whether `malloc (10000000)` succeeds (line 20). -/
  offsetAlloc : Bool
  /-- Whether `malloc (SIZE)` succeeds (line 26). -/
  buffAlloc : Bool
  /-- The stream opened on the input file. -/
  stream : Stream
  deriving DecidableEq, Repr

/-- The procedure `offset_collector` with chunk size `size`.  When the index
buffer is NULL the first access to it is `strlen(offset)` at line 45, after
the first `fread`. -/
def collectWith (size : Nat) (sys : Sys) : Outcome :=
  if sys.buffAlloc = false then Outcome.allocAbort
  else if sys.offsetAlloc = false then
    (if (fread size sys.stream).1.length % 2 ^ 64 = MINUS_ONE then Outcome.readAbort State.init
     else Outcome.fault Fault.nullDeref)
  else scanLoop size (sys.stream.data.length + 1) sys.stream State.init

/-- The procedure `offset_collector` with chunk size `size` when the block
returned by `malloc (10000000)` holds the bytes `block`; `collectWith` is the
case of a zero-filled block. -/
def collectOn (block : List Nat) (size : Nat) (sys : Sys) : Outcome :=
  if sys.buffAlloc = false then Outcome.allocAbort
  else if sys.offsetAlloc = false then
    (if (fread size sys.stream).1.length % 2 ^ 64 = MINUS_ONE then
      Outcome.readAbort (State.initOn block)
     else Outcome.fault Fault.nullDeref)
  else scanLoop size (sys.stream.data.length + 1) sys.stream (State.initOn block)

/-- An environment in which both allocations succeed and the stream delivers
the bytes of `input` and then reports end-of-file. -/
def Sys.file (input : List Nat) : Sys :=
  { offsetAlloc := true, buffAlloc := true, stream := { data := input, broken := false } }

/-- The procedure `offset_collector` as compiled, `SIZE = 0x32000`. -/
def offset_collector (sys : Sys) : Outcome := collectWith SIZE sys

/-- Contents of the output file after a run, when the run reaches line 74. -/
def Outcome.output : Outcome → Option (List Nat)
  | Outcome.done st => some st.downstream
  | _ => none

/-- Number of times the flush branch ran, when the run reaches line 74. -/
def Outcome.flushes : Outcome → Option Nat
  | Outcome.done st => some st.wrongHere
  | _ => none

/-! ## Reference index text -/

/-- The index of `input` read as a file that starts at byte offset `f`: for
each byte `'\n'` at position `p`, the decimal text of `p + 1` and a comma. -/
def indexFrom : Nat → List Nat → List Nat
  | _, [] => []
  | f, b :: bs => (if b = NL then decimal (f + 1) ++ [COMMA] else []) ++ indexFrom (f + 1) bs

/-- The complete index of a file. -/
def indexText (input : List Nat) : List Nat := indexFrom 0 input

/-- The text that lines 55-59 append when `fileoff = f`: the characters
stored by `snprintf` for `i = fileoff + 1`, and a comma. -/
def entryText (f : Nat) : List Nat := (fmtLLD ((f + 1) % 2 ^ 64)).take 19 ++ [COMMA]

/-- The text that the scan of `chunk` appends to the index buffer when it
starts with `fileoff = f`: one `entryText` per `'\n'`. -/
def emitted : Nat → List Nat → List Nat
  | _, [] => []
  | f, b :: bs => (if b = NL then entryText f else []) ++ emitted ((f + 1) % 2 ^ 64) bs

/-- The buffer `mem` with `bytes` stored from index `pos` on. -/
def splice (mem : List Nat) (pos : Nat) (bytes : List Nat) : List Nat :=
  mem.take pos ++ (bytes ++ mem.drop (pos + bytes.length))

/-- A state whose index buffer holds `txt` followed by zero bytes only, with
the write cursor at the end of `txt`. -/
def cleanState (txt : List Nat) (f : Nat) (out : List Nat) (w : Nat) : State :=
  { offset := txt ++ List.replicate (CAP - txt.length) 0, mover := txt.length,
    fileoff := f, downstream := out, wrongHere := w }

/-- The part of one iteration that follows the flush check: the scan of the
chunk, then the exit test. -/
def loopTail (size fuel : Nat) (s : Stream) (st1 : State) : Outcome :=
  match scanChunk (s.data.take size) st1 with
  | .error e => Outcome.fault e
  | .ok st2 =>
    if s.data.take size = [] then finalWrite st2
    else scanLoop size fuel { s with data := s.data.drop size } st2

/-- The loop of `offset_collector` with the iteration bound used by `collectWith`. -/
def run (size : Nat) (s : Stream) (st : State) : Outcome :=
  scanLoop size (s.data.length + 1) s st

/-! ## Reading the output back -/

/-- The output split at commas: every comma ends a field, and the bytes after
the last comma form a field when there are any. -/
def fields : List Nat → List (List Nat)
  | [] => []
  | b :: bs =>
      if b = COMMA then [] :: fields bs
      else
        match fields bs with
        | [] => [[b]]
        | fld :: rest => (b :: fld) :: rest

/-- The number written by a string of decimal digits. -/
def parseDecimal (l : List Nat) : Nat := l.foldl (fun acc b => 10 * acc + (b - 48)) 0

/-- The sequence of numbers obtained by splitting the output at commas. -/
def offsetsOf (out : List Nat) : List Nat := (fields out).map parseDecimal

/-- An environment whose stream delivers the two bytes `"A\n"` and then fails
with an I/O error. -/
def brokenSys : Sys :=
  { offsetAlloc := true, buffAlloc := true, stream := { data := [65, NL], broken := true } }

/-! ## Inputs -/

/-- A file of 2,457,600 bytes: 1,024,000 bytes `'A'`, then 1,433,600 bytes `'\n'`. -/
def overrunInput : List Nat := List.replicate 1024000 65 ++ List.replicate 1433600 NL

/-- A file of 2,457,600 bytes (twelve chunks of `SIZE` bytes): 1,024,000 bytes
`'A'`, then 1,249,999 bytes `'\n'`, then 183,601 bytes `'A'`. -/
def staleHead : List Nat :=
  List.replicate 1024000 65 ++ (List.replicate 1249999 NL ++ List.replicate 183601 65)

/-- The file `staleHead` followed by two more bytes `'\n'`. -/
def staleInput : List Nat := staleHead ++ [NL, NL]

/-- The file `staleHead` followed by a chunk of `SIZE` bytes that starts with
two bytes `'\n'`, and by two more bytes `'\n'`. -/
def twiceStaleInput : List Nat :=
  staleHead ++ (([NL, NL] ++ List.replicate 204798 65) ++ [NL, NL])

/-- A state whose index buffer holds the non-zero bytes `body` followed by zero
bytes only, with the write cursor anywhere. -/
def dirtyState (body : List Nat) (m f : Nat) (out : List Nat) (w : Nat) : State :=
  { offset := body ++ List.replicate (CAP - body.length) 0, mover := m,
    fileoff := f, downstream := out, wrongHere := w }

/-- The state of the run on `staleInput` at the head of its fourteenth
iteration: the two entries of the thirteenth chunk lie at the start of the
buffer, the write cursor is behind them, and the text written out by the first
flush follows them from index 16 on. -/
def staleState : State :=
  dirtyState (emitted 2457600 [NL, NL] ++ (emitted 0 staleHead).drop 16) 16 2457602
    (emitted 0 staleHead) 1

/-- The successive non-empty results of `fread(buff, 1, size, stream)` on a
stream that holds `data`; `fuel` bounds their number. -/
def chunksOf (size : Nat) : Nat → List Nat → List (List Nat)
  | 0, _ => []
  | fuel + 1, data =>
      if data.take size = [] then []
      else data.take size :: chunksOf size fuel (data.drop size)

/-- The iterations of the loop over the given chunks, one after the other:
lines 45-50, then lines 52-62. -/
def iterChunks : List (List Nat) → State → Except Fault State
  | [], st => .ok st
  | c :: cs, st =>
      match flushCheck st with
      | .error e => .error e
      | .ok st1 =>
        match scanChunk c st1 with
        | .error e => .error e
        | .ok st2 => iterChunks cs st2

/-- The iteration in which `fread` returns 0: lines 45-50, an empty scan, the
exit from the loop, and lines 66-74. -/
def lastIteration (st : State) : Outcome :=
  match flushCheck st with
  | .error e => Outcome.fault e
  | .ok st1 => finalWrite st1

/-- The initial state with the running offset at `2 ^ 63 - 1`. -/
def signState : State := { State.init with fileoff := 2 ^ 63 - 1 }

/-- The initial state with the running offset at `2 ^ 64 - 1`. -/
def wrapState : State := { State.init with fileoff := 2 ^ 64 - 1 }

/-- A file of 2,274,000 bytes: 1,024,000 bytes `'A'`, then 1,250,000 bytes
`'\n'`; its index text has exactly 10,000,000 bytes. -/
def fullInput : List Nat := List.replicate 1024000 65 ++ List.replicate 1250000 NL

/-- The state after the scan of the two bytes `"A\n"` from the start of a run. -/
def twoByteState : State := cleanState [50, 44] 2 [] 0

/-- A block of 10,000,000 bytes that holds the text `7,` at its start, left
there by an earlier use of the memory, and zero bytes behind it. -/
def usedBlock : List Nat := [55, 44] ++ List.replicate (CAP - 2) 0

/-- A block of 10,000,000 bytes that holds two zero bytes, then the text `7,`
left there by an earlier use of the memory, and zero bytes behind it. -/
def gapBlock : List Nat := [0, 0, 55, 44] ++ List.replicate (CAP - 4) 0

/-- A block of 10,000,000 bytes without a zero byte. -/
def fullBlock : List Nat := List.replicate CAP 65

/-- The first eleven chunks of `SIZE` bytes that `fread` delivers from
`overrunInput`: five of bytes `'A'` and six of bytes `'\n'`. -/
def overrunChunks : List (List Nat) :=
  List.replicate 5 (List.replicate SIZE 65) ++ List.replicate 6 (List.replicate SIZE NL)

/-- The state of the run on `overrunInput` at the head of its twelfth
iteration: the entries of the first eleven chunks fill 9,830,400 bytes of the
index buffer, and no flush has happened. -/
def overrunState : State :=
  cleanState (emitted 0 (List.replicate 1024000 65 ++ List.replicate 1228800 NL)) 2252800 [] 0

/-! ## `strlen` -/

theorem strlen_append_zero (txt rest : List Nat) (h : ∀ b ∈ txt, b ≠ 0) :
    strlen (txt ++ 0 :: rest) = some txt.length := by
  induction txt with
  | nil => simp [strlen]
  | cons b bs ih =>
    have hb : b ≠ 0 := h b (by simp)
    have ih2 := ih (fun c hc => h c (by simp [hc]))
    simp [strlen, hb, ih2]

theorem strlen_nonzero (l : List Nat) (h : ∀ b ∈ l, b ≠ 0) : strlen l = none := by
  induction l with
  | nil => simp [strlen]
  | cons b bs ih =>
    have hb : b ≠ 0 := h b (by simp)
    have ih2 := ih (fun c hc => h c (by simp [hc]))
    simp [strlen, hb, ih2]

theorem strlen_zero_cons (rest : List Nat) : strlen (0 :: rest) = some 0 := by
  simp [strlen]

/-! ## Decimal text -/

theorem decimalAux_acc (fuel n : Nat) (acc : List Nat) :
    decimalAux fuel n acc = decimalAux fuel n [] ++ acc := by
  induction fuel generalizing n acc with
  | zero => simp [decimalAux]
  | succ k ih =>
    unfold decimalAux
    split
    · simp
    · rw [ih (n / 10) ((48 + n % 10) :: acc), ih (n / 10) [48 + n % 10]]
      simp

theorem decimalAux_fuel (fuel n : Nat) (acc : List Nat) (h : n < fuel) :
    decimalAux fuel n acc = decimalAux (n + 1) n acc := by
  induction fuel using Nat.strong_induction_on generalizing n acc with
  | _ fuel ih =>
    cases fuel with
    | zero => omega
    | succ k =>
      by_cases hn : n < 10
      · simp [decimalAux, hn]
      · have h1 : n / 10 < k := by omega
        have h2 : n / 10 < n := by omega
        rw [decimalAux, if_neg hn, decimalAux, if_neg hn]
        rw [ih k (by omega) (n / 10) _ h1]
        by_cases h3 : n = 0
        · omega
        · rw [ih n (by omega) (n / 10) _ h2]

theorem decimal_small (n : Nat) (h : n < 10) : decimal n = [48 + n] := by
  simp [decimal, decimalAux, h]

theorem decimal_step (n : Nat) (h : ¬ n < 10) :
    decimal n = decimal (n / 10) ++ [48 + n % 10] := by
  have h2 : n / 10 < n := by omega
  unfold decimal
  rw [decimalAux, if_neg h, decimalAux_fuel n (n / 10) _ h2, decimalAux_acc]

theorem decimal_digits (n : Nat) : ∀ b ∈ decimal n, 48 ≤ b ∧ b ≤ 57 := by
  induction n using Nat.strong_induction_on with
  | _ n ih =>
    by_cases h : n < 10
    · rw [decimal_small n h]
      intro b hb
      simp at hb
      omega
    · rw [decimal_step n h]
      intro b hb
      rcases List.mem_append.1 hb with hb | hb
      · exact ih (n / 10) (by omega) b hb
      · simp at hb
        omega

theorem decimal_length_le (k n : Nat) (hk : 0 < k) (h : n < 10 ^ k) :
    (decimal n).length ≤ k := by
  induction k generalizing n with
  | zero => omega
  | succ k ih =>
    by_cases hn : n < 10
    · rw [decimal_small n hn]
      simp
    · rw [decimal_step n hn]
      have hk0 : 0 < k := by
        rcases Nat.eq_zero_or_pos k with h0 | h0
        · subst h0
          simp at h
          omega
        · exact h0
      have h2 : n / 10 < 10 ^ k := by
        rw [pow_succ] at h
        exact Nat.div_lt_of_lt_mul (by rw [Nat.mul_comm]; exact h)
      have := ih (n / 10) hk0 h2
      simp
      exact this

theorem decimal_length_ge (k n : Nat) (h : 10 ^ k ≤ n) : k + 1 ≤ (decimal n).length := by
  induction k generalizing n with
  | zero =>
    by_cases hn : n < 10
    · rw [decimal_small n hn]
      simp
    · rw [decimal_step n hn]
      simp
  | succ k ih =>
    have hn : ¬ n < 10 := by
      have : 10 ^ 1 ≤ 10 ^ (k + 1) := Nat.pow_le_pow_right (by decide) (by omega)
      simp at this
      omega
    rw [decimal_step n hn]
    have h2 : 10 ^ k ≤ n / 10 := by
      rw [pow_succ] at h
      exact (Nat.le_div_iff_mul_le (by decide)).2 h
    have := ih (n / 10) h2
    simp
    exact this

/-! ## Buffer writes -/

theorem splice_length (mem : List Nat) (pos : Nat) (bytes : List Nat)
    (h : pos + bytes.length ≤ mem.length) : (splice mem pos bytes).length = mem.length := by
  simp [splice]
  omega

theorem splice_nil (mem : List Nat) (pos : Nat) : splice mem pos [] = mem := by
  simp [splice]

theorem splice_take (mem : List Nat) (pos : Nat) (bytes : List Nat) (h : pos ≤ mem.length) :
    (splice mem pos bytes).take (pos + bytes.length) = mem.take pos ++ bytes := by
  unfold splice
  rw [← List.append_assoc]
  apply List.take_left'
  simp
  omega

theorem splice_drop (mem : List Nat) (pos : Nat) (bytes : List Nat) (k : Nat)
    (h : pos ≤ mem.length) :
    (splice mem pos bytes).drop (pos + bytes.length + k) = mem.drop (pos + bytes.length + k) := by
  unfold splice
  rw [← List.append_assoc]
  have hl : (List.take pos mem ++ bytes).length = pos + bytes.length := by
    simp
    omega
  rw [List.drop_append_eq_append_drop, hl]
  have h1 : List.drop (pos + bytes.length + k) (List.take pos mem ++ bytes) = [] := by
    apply List.drop_eq_nil_of_le
    omega
  rw [h1, List.drop_drop]
  simp

theorem splice_splice (mem : List Nat) (pos : Nat) (a b : List Nat) (h : pos ≤ mem.length) :
    splice (splice mem pos a) (pos + a.length) b = splice mem pos (a ++ b) := by
  have h1 := splice_take mem pos a h
  have h2 := splice_drop mem pos a b.length h
  rw [splice, h1, h2]
  simp [splice, Nat.add_assoc]

theorem writeAt_eq (mem : List Nat) (pos : Nat) (bytes : List Nat) :
    writeAt mem pos bytes =
      if pos + bytes.length ≤ CAP then .ok (splice mem pos bytes) else .error Fault.overrun := by
  rfl

/-! ## The text of one entry -/

theorem fmtLLD_nonzero (i : Nat) : ∀ b ∈ fmtLLD i, b ≠ 0 := by
  intro b hb
  unfold fmtLLD at hb
  split at hb
  · have := decimal_digits i b hb
    omega
  · rcases List.mem_cons.1 hb with hb | hb
    · omega
    · have := decimal_digits _ b hb
      omega

theorem take_fmtLLD_nonzero (i : Nat) : ∀ b ∈ (fmtLLD i).take 19, b ≠ 0 :=
  fun b hb => fmtLLD_nonzero i b (List.mem_of_mem_take hb)

theorem entryText_nonzero (f : Nat) : ∀ b ∈ entryText f, b ≠ 0 := by
  intro b hb
  unfold entryText at hb
  rcases List.mem_append.1 hb with hb | hb
  · exact take_fmtLLD_nonzero _ b hb
  · simp [COMMA] at hb
    omega

theorem entryText_length (f : Nat) :
    (entryText f).length = ((fmtLLD ((f + 1) % 2 ^ 64)).take 19).length + 1 := by
  simp [entryText]

theorem splice_take_left (mem : List Nat) (pos : Nat) (bytes : List Nat) (h : pos ≤ mem.length) :
    (splice mem pos bytes).take pos = mem.take pos := by
  unfold splice
  apply List.take_left'
  simp
  omega

theorem splice_overwrite (mem : List Nat) (pos : Nat) (a b : List Nat) (h : pos ≤ mem.length)
    (hab : a.length = b.length) : splice (splice mem pos a) pos b = splice mem pos b := by
  have h1 := splice_take_left mem pos a h
  have h2 := splice_drop mem pos a 0 h
  simp only [Nat.add_zero] at h2
  rw [splice, h1, ← hab, h2, hab]
  rfl

theorem appendOffset_eq (st : State) (hlenO : st.offset.length = CAP) (hm : st.mover ≤ CAP) :
    appendOffset st =
      if st.mover + (entryText st.fileoff).length ≤ CAP then
        .ok { st with offset := splice st.offset st.mover (entryText st.fileoff)
                      mover := st.mover + (entryText st.fileoff).length }
      else .error Fault.overrun := by
  have hlen := entryText_length st.fileoff
  generalize ht : (fmtLLD ((st.fileoff + 1) % 2 ^ 64)).take 19 = t at hlen
  have htnz : ∀ b ∈ t, b ≠ 0 := by
    rw [← ht]
    exact take_fmtLLD_nonzero _
  have he : entryText st.fileoff = t ++ [COMMA] := by
    rw [entryText, ht]
  have hmo : st.mover ≤ st.offset.length := by omega
  unfold appendOffset
  simp only [snprintf20, ht, writeAt_eq]
  by_cases hfit : st.mover + (t ++ [0]).length ≤ CAP
  · have hfit2 : st.mover + (entryText st.fileoff).length ≤ CAP := by
      rw [hlen]
      simpa using hfit
    have hfit3 : st.mover + t.length + [COMMA].length ≤ CAP := by
      simpa [Nat.add_assoc] using hfit
    rw [if_pos hfit, if_pos hfit2]
    have hd : (splice st.offset st.mover (t ++ [0])).drop st.mover
        = t ++ 0 :: st.offset.drop (st.mover + (t ++ [0]).length) := by
      unfold splice
      rw [List.drop_left' (by simp; omega)]
      simp
    simp only [hd, strlen_append_zero t _ htnz, if_pos hfit3]
    have h1 := splice_splice st.offset st.mover t [0] hmo
    have h2 := splice_splice st.offset st.mover t [COMMA] hmo
    have hl : (splice st.offset st.mover t).length = st.offset.length :=
      splice_length _ _ _ (by simp at hfit; omega)
    have h3 : splice (splice st.offset st.mover (t ++ [0])) (st.mover + t.length) [COMMA]
        = splice st.offset st.mover (t ++ [COMMA]) := by
      rw [← h1, ← h2]
      exact splice_overwrite _ _ _ _ (by simp at hfit; omega) rfl
    rw [h3, he]
    simp [Nat.add_assoc]
  · have hfit2 : ¬ st.mover + (entryText st.fileoff).length ≤ CAP := by
      rw [hlen]
      simpa using hfit
    rw [if_neg hfit, if_neg hfit2]

/-! ## The scan of one chunk -/

theorem emitted_nil (f : Nat) : emitted f [] = [] := rfl

theorem emitted_cons (f b : Nat) (bs : List Nat) :
    emitted f (b :: bs)
      = (if b = NL then entryText f else []) ++ emitted ((f + 1) % 2 ^ 64) bs := rfl

theorem scanChunk_eq (chunk : List Nat) (st : State) (hlenO : st.offset.length = CAP)
    (hm : st.mover ≤ CAP) (hf : st.fileoff < 2 ^ 64) :
    scanChunk chunk st =
      if st.mover + (emitted st.fileoff chunk).length ≤ CAP then
        .ok { st with offset := splice st.offset st.mover (emitted st.fileoff chunk)
                      mover := st.mover + (emitted st.fileoff chunk).length
                      fileoff := (st.fileoff + chunk.length) % 2 ^ 64 }
      else .error Fault.overrun := by
  induction chunk generalizing st with
  | nil =>
    have hf2 : st.fileoff % 18446744073709551616 = st.fileoff := Nat.mod_eq_of_lt hf
    simp [scanChunk, emitted_nil, splice_nil, hm, hf2]
  | cons b bs ih =>
    have hmod : ∀ x : Nat, x % 2 ^ 64 < 2 ^ 64 := fun x => Nat.mod_lt _ (by decide)
    have hfo : ((st.fileoff + 1) % 2 ^ 64 + bs.length) % 2 ^ 64
        = (st.fileoff + (bs.length + 1)) % 2 ^ 64 := by
      rw [Nat.add_mod, Nat.mod_mod, ← Nat.add_mod]
      congr 1
      omega
    by_cases hb : b = NL
    · rw [scanChunk, if_pos hb, appendOffset_eq st hlenO hm, emitted_cons, if_pos hb]
      by_cases hfit : st.mover + (entryText st.fileoff).length ≤ CAP
      · rw [if_pos hfit]
        simp only []
        rw [ih _ (by simpa using (splice_length _ _ _ (by omega)).trans hlenO)
          (by simpa using hfit) (by simpa using hmod _)]
        simp only [List.length_append, List.length_cons, hfo]
        rw [splice_splice _ _ _ _ (by omega)]
        simp only [Nat.add_assoc]
      · rw [if_neg hfit]
        simp only []
        rw [if_neg]
        simp only [List.length_append]
        omega
    · rw [scanChunk, if_neg hb, emitted_cons, if_neg hb]
      rw [ih _ (by simpa using hlenO) (by simpa using hm) (by simpa using hmod _)]
      simp only [List.nil_append, List.length_cons, hfo]

/-! ## One iteration of the loop -/

theorem scanLoop_step (size fuel : Nat) (s : Stream) (st : State) (hsize : size < MINUS_ONE) :
    scanLoop size (fuel + 1) s st =
      match flushCheck st with
      | .error e => Outcome.fault e
      | .ok st1 => loopTail size fuel s st1 := by
  have hle : (s.data.take size).length ≤ size := by
    simp [List.length_take]
  have hlt : (s.data.take size).length < 2 ^ 64 := by
    unfold MINUS_ONE at hsize
    omega
  have hmod : (s.data.take size).length % 2 ^ 64 = (s.data.take size).length :=
    Nat.mod_eq_of_lt hlt
  have hne : ¬ (s.data.take size).length = MINUS_ONE := by
    unfold MINUS_ONE at *
    omega
  have h0 : ((s.data.take size).length = 0) = (s.data.take size = []) := by
    simp [List.length_eq_zero]
  rw [scanLoop]
  simp only [fread, hmod, if_neg hne, List.take_length, h0]
  rfl

theorem drop_length_lt (size : Nat) (data : List Nat) (h : data.take size ≠ []) :
    (data.drop size).length < data.length := by
  have h1 : size ≠ 0 := by
    intro h0
    subst h0
    simp at h
  have h2 : data ≠ [] := by
    intro h0
    subst h0
    simp at h
  have h3 : 0 < data.length := List.length_pos.2 h2
  simp only [List.length_drop]
  omega

theorem scanLoop_fuel (size : Nat) (hsize : size < MINUS_ONE) (fuel1 fuel2 : Nat) (s : Stream)
    (st : State) (h1 : s.data.length < fuel1) (h2 : s.data.length < fuel2) :
    scanLoop size fuel1 s st = scanLoop size fuel2 s st := by
  induction fuel1 generalizing fuel2 s st with
  | zero => omega
  | succ k ih =>
    cases fuel2 with
    | zero => omega
    | succ j =>
      rw [scanLoop_step size k s st hsize, scanLoop_step size j s st hsize]
      cases flushCheck st with
      | error e => rfl
      | ok st1 =>
        simp only [loopTail]
        cases scanChunk (s.data.take size) st1 with
        | error e => rfl
        | ok st2 =>
          simp only []
          by_cases hc : s.data.take size = []
          · rw [if_pos hc, if_pos hc]
          · rw [if_neg hc, if_neg hc]
            have := drop_length_lt size s.data hc
            exact ih j _ st2 (by simp only []; omega) (by simp only []; omega)

/-! ## Clean states -/

theorem cleanState_length (txt : List Nat) (f : Nat) (out : List Nat) (w : Nat)
    (h : txt.length ≤ CAP) : (cleanState txt f out w).offset.length = CAP := by
  simp [cleanState]
  omega

theorem strlen_clean (txt : List Nat) (hnz : ∀ b ∈ txt, b ≠ 0) (h : txt.length < CAP) :
    strlen (txt ++ List.replicate (CAP - txt.length) 0) = some txt.length := by
  obtain ⟨k, hk⟩ : ∃ k, CAP - txt.length = k + 1 := ⟨CAP - txt.length - 1, by omega⟩
  rw [hk, List.replicate_succ]
  exact strlen_append_zero txt _ hnz

theorem strlen_full (txt : List Nat) (hnz : ∀ b ∈ txt, b ≠ 0) (h : txt.length = CAP) :
    strlen (txt ++ List.replicate (CAP - txt.length) 0) = none := by
  rw [h, Nat.sub_self]
  simp only [List.replicate_zero, List.append_nil]
  exact strlen_nonzero txt hnz

theorem take_clean (txt : List Nat) (k : Nat) :
    (txt ++ List.replicate k 0).take txt.length = txt := by
  apply List.take_left'
  rfl

theorem flushCheck_clean (txt : List Nat) (f : Nat) (out : List Nat) (w : Nat)
    (hnz : ∀ b ∈ txt, b ≠ 0) (h : txt.length ≤ THRESH) :
    flushCheck (cleanState txt f out w) = .ok (cleanState txt f out w) := by
  have h1 : txt.length < CAP := by
    unfold THRESH at h
    unfold CAP
    omega
  unfold flushCheck
  simp only [cleanState, strlen_clean txt hnz h1]
  rw [if_neg (by omega)]

theorem flushCheck_clean_flush (txt : List Nat) (f : Nat) (out : List Nat) (w : Nat)
    (hnz : ∀ b ∈ txt, b ≠ 0) (h : THRESH < txt.length) (h1 : txt.length < CAP) :
    flushCheck (cleanState txt f out w) = .ok (flush (cleanState txt f out w) txt.length) := by
  unfold flushCheck
  simp only [cleanState, strlen_clean txt hnz h1]
  rw [if_pos (by omega)]

theorem flushCheck_clean_full (txt : List Nat) (f : Nat) (out : List Nat) (w : Nat)
    (hnz : ∀ b ∈ txt, b ≠ 0) (h : txt.length = CAP) :
    flushCheck (cleanState txt f out w) = .error Fault.overread := by
  unfold flushCheck
  simp only [cleanState, strlen_full txt hnz h]

theorem splice_clean (txt e : List Nat) (h : txt.length + e.length ≤ CAP) :
    splice (txt ++ List.replicate (CAP - txt.length) 0) txt.length e
      = (txt ++ e) ++ List.replicate (CAP - (txt ++ e).length) 0 := by
  unfold splice
  rw [List.take_left' rfl, List.drop_append_eq_append_drop]
  have h1 : List.drop (txt.length + e.length) txt = [] :=
    List.drop_eq_nil_of_le (by omega)
  rw [h1]
  simp only [List.nil_append, List.drop_replicate, List.length_append, List.append_assoc]
  congr 3
  omega

theorem scanChunk_clean (chunk txt : List Nat) (f : Nat) (out : List Nat) (w : Nat)
    (h : txt.length ≤ CAP) (hf : f < 2 ^ 64) :
    scanChunk chunk (cleanState txt f out w) =
      if txt.length + (emitted f chunk).length ≤ CAP then
        .ok (cleanState (txt ++ emitted f chunk) ((f + chunk.length) % 2 ^ 64) out w)
      else .error Fault.overrun := by
  rw [scanChunk_eq chunk _ (cleanState_length txt f out w h) h hf]
  simp only [cleanState]
  by_cases hfit : txt.length + (emitted f chunk).length ≤ CAP
  · rw [if_pos hfit, if_pos hfit, splice_clean txt _ hfit]
    simp
  · rw [if_neg hfit, if_neg hfit]

theorem finalWrite_clean (txt : List Nat) (f : Nat) (out : List Nat) (w : Nat)
    (hnz : ∀ b ∈ txt, b ≠ 0) (h : txt.length < CAP) :
    finalWrite (cleanState txt f out w) = Outcome.done (cleanState txt f (out ++ txt) w) := by
  unfold finalWrite
  simp only [cleanState, strlen_clean txt hnz h, take_clean]

/-! ## The emitted text -/

theorem emitted_nonzero (f : Nat) (l : List Nat) : ∀ b ∈ emitted f l, b ≠ 0 := by
  induction l generalizing f with
  | nil => simp [emitted]
  | cons b bs ih =>
    intro c hc
    rw [emitted_cons] at hc
    rcases List.mem_append.1 hc with hc | hc
    · split at hc
      · exact entryText_nonzero f c hc
      · simp at hc
    · exact ih _ c hc

theorem emitted_append (f : Nat) (a b : List Nat) (hf : f < 2 ^ 64) :
    emitted f (a ++ b) = emitted f a ++ emitted ((f + a.length) % 2 ^ 64) b := by
  induction a generalizing f with
  | nil =>
    have hf2 : f % 18446744073709551616 = f := Nat.mod_eq_of_lt hf
    simp [emitted, hf2]
  | cons x xs ih =>
    have hfo : ((f + 1) % 2 ^ 64 + xs.length) % 2 ^ 64 = (f + (xs.length + 1)) % 2 ^ 64 := by
      rw [Nat.add_mod, Nat.mod_mod, ← Nat.add_mod]
      congr 1
      omega
    rw [List.cons_append, emitted_cons, emitted_cons, ih _ (Nat.mod_lt _ (by decide))]
    simp only [List.length_cons, hfo, List.append_assoc]

theorem emitted_take_drop (f size : Nat) (data : List Nat) (hf : f < 2 ^ 64) :
    emitted f data = emitted f (data.take size)
      ++ emitted ((f + (data.take size).length) % 2 ^ 64) (data.drop size) := by
  rw [← emitted_append f _ _ hf, List.take_append_drop]

theorem emitted_no_newline (f : Nat) (l : List Nat) (h : NL ∉ l) : emitted f l = [] := by
  induction l generalizing f with
  | nil => rfl
  | cons b bs ih =>
    have hb : b ≠ NL := fun hb => h (by simp [hb])
    have hbs : NL ∉ bs := fun hb => h (by simp [hb])
    rw [emitted_cons, if_neg hb, ih _ hbs]
    rfl

/-! ## Runs without a flush -/

theorem mod_add_mod_64 (f a b : Nat) :
    ((f + a) % 2 ^ 64 + b) % 2 ^ 64 = (f + (a + b)) % 2 ^ 64 := by
  rw [Nat.add_mod, Nat.mod_mod, ← Nat.add_mod]
  congr 1
  omega

theorem scanLoop_clean (size : Nat) (hsize : size < MINUS_ONE) (hpos : 0 < size) (fuel : Nat)
    (data : List Nat) (br : Bool) (txt : List Nat) (f : Nat) (out : List Nat) (w : Nat)
    (hnz : ∀ b ∈ txt, b ≠ 0) (hf : f < 2 ^ 64)
    (hfit : txt.length + (emitted f data).length ≤ THRESH) (hfuel : data.length < fuel) :
    scanLoop size fuel { data := data, broken := br } (cleanState txt f out w) =
      Outcome.done (cleanState (txt ++ emitted f data) ((f + data.length) % 2 ^ 64)
        (out ++ (txt ++ emitted f data)) w) := by
  induction fuel generalizing data txt f with
  | zero => omega
  | succ k ih =>
    have hT : THRESH < CAP := by decide
    have hsplit := emitted_take_drop f size data hf
    have hlen : (emitted f data).length = (emitted f (data.take size)).length
        + (emitted ((f + (data.take size).length) % 2 ^ 64) (data.drop size)).length := by
      have := congrArg List.length hsplit
      rwa [List.length_append] at this
    rw [scanLoop_step size k _ _ hsize, flushCheck_clean txt f out w hnz (by omega)]
    simp only [loopTail]
    rw [scanChunk_clean _ txt f out w (by omega) hf, if_pos (by omega)]
    simp only []
    by_cases hc : data.take size = []
    · have hd : data = [] := by
        cases data with
        | nil => rfl
        | cons x xs =>
          cases size with
          | zero => omega
          | succ n => simp at hc
      subst hd
      have hf2 : f % 2 ^ 64 = f := Nat.mod_eq_of_lt hf
      simp only [List.take_nil, if_true, emitted_nil, List.append_nil, List.length_nil,
        Nat.add_zero, hf2]
      simp only [emitted_nil, List.length_nil, Nat.add_zero] at hfit
      exact finalWrite_clean txt f out w hnz (by omega)
    · rw [if_neg hc]
      have hdrop := drop_length_lt size data hc
      have hnz2 : ∀ b ∈ txt ++ emitted f (data.take size), b ≠ 0 := by
        intro b hb
        rcases List.mem_append.1 hb with hb | hb
        · exact hnz b hb
        · exact emitted_nonzero _ _ b hb
      rw [ih (data.drop size) (txt ++ emitted f (data.take size))
        ((f + (data.take size).length) % 2 ^ 64) hnz2 (Nat.mod_lt _ (by decide))
        (by rw [List.length_append]; omega) (by omega)]
      have hcount : (data.take size).length + (data.drop size).length = data.length := by
        rw [← List.length_append, List.take_append_drop]
      rw [mod_add_mod_64, hcount, List.append_assoc, ← hsplit]

/-! ## The flush counter -/

theorem appendOffset_wrongHere (st st1 : State) (h : appendOffset st = .ok st1) :
    st1.wrongHere = st.wrongHere := by
  unfold appendOffset at h
  simp only [] at h
  split at h
  · cases h
  · split at h
    · cases h
    · split at h
      · cases h
      · cases h
        rfl

theorem scanChunk_wrongHere (chunk : List Nat) (st st2 : State)
    (h : scanChunk chunk st = .ok st2) : st2.wrongHere = st.wrongHere := by
  induction chunk generalizing st with
  | nil =>
    simp only [scanChunk] at h
    cases h
    rfl
  | cons b bs ih =>
    rw [scanChunk] at h
    split at h
    · split at h
      · cases h
      · rename_i st1 h1
        have := ih _ h
        simp only [] at this
        rw [this]
        exact appendOffset_wrongHere st st1 h1
    · have := ih _ h
      simpa using this

theorem flushCheck_wrongHere (st st1 : State) (h : flushCheck st = .ok st1) :
    st.wrongHere ≤ st1.wrongHere := by
  unfold flushCheck at h
  split at h
  · cases h
  · split at h
    · cases h
      simp [flush]
    · cases h
      exact Nat.le_refl _

theorem finalWrite_flushes (st : State) (n : Nat) (h : (finalWrite st).flushes = some n) :
    n = st.wrongHere := by
  unfold finalWrite at h
  split at h
  · simp [Outcome.flushes] at h
  · simp only [Outcome.flushes, Option.some.injEq] at h
    exact h.symm

theorem loopTail_flushes (size fuel : Nat) (s : Stream) (st1 : State) (n : Nat)
    (ih : ∀ (s2 : Stream) (st2 : State), (scanLoop size fuel s2 st2).flushes = some n →
      st2.wrongHere ≤ n)
    (h : (loopTail size fuel s st1).flushes = some n) : st1.wrongHere ≤ n := by
  unfold loopTail at h
  split at h
  · simp [Outcome.flushes] at h
  · rename_i st2 h2
    have hw := scanChunk_wrongHere _ _ _ h2
    split at h
    · have := finalWrite_flushes st2 n h
      omega
    · have := ih _ _ h
      omega

theorem scanLoop_flushes_mono (size : Nat) (hsize : size < MINUS_ONE) (fuel : Nat) (s : Stream)
    (st : State) (n : Nat) (h : (scanLoop size fuel s st).flushes = some n) :
    st.wrongHere ≤ n := by
  induction fuel generalizing s st with
  | zero => simp [scanLoop, Outcome.flushes] at h
  | succ k ih =>
    rw [scanLoop_step size k s st hsize] at h
    split at h
    · simp [Outcome.flushes] at h
    · rename_i st1 h1
      have hw := flushCheck_wrongHere st st1 h1
      have := loopTail_flushes size k s st1 n ih h
      omega

theorem scanLoop_clean_flushes (size : Nat) (hsize : size < MINUS_ONE) (hpos : 0 < size)
    (fuel : Nat) (data : List Nat) (br : Bool) (txt : List Nat) (f : Nat) (out : List Nat)
    (w : Nat) (hnz : ∀ b ∈ txt, b ≠ 0) (hf : f < 2 ^ 64) (hcap : txt.length ≤ CAP)
    (hbig : THRESH < txt.length + (emitted f data).length) :
    (scanLoop size fuel { data := data, broken := br } (cleanState txt f out w)).flushes
      ≠ some w := by
  induction fuel generalizing data txt f with
  | zero => simp [scanLoop, Outcome.flushes]
  | succ k ih =>
    have hsplit := emitted_take_drop f size data hf
    have hlen : (emitted f data).length = (emitted f (data.take size)).length
        + (emitted ((f + (data.take size).length) % 2 ^ 64) (data.drop size)).length := by
      have := congrArg List.length hsplit
      rwa [List.length_append] at this
    rw [scanLoop_step size k _ _ hsize]
    by_cases hthr : txt.length ≤ THRESH
    · rw [flushCheck_clean txt f out w hnz hthr]
      simp only [loopTail]
      rw [scanChunk_clean _ txt f out w hcap hf]
      by_cases hfit : txt.length + (emitted f (data.take size)).length ≤ CAP
      · rw [if_pos hfit]
        simp only []
        by_cases hc : data.take size = []
        · have hd : data = [] := by
            cases data with
            | nil => rfl
            | cons x xs =>
              cases size with
              | zero => omega
              | succ n => simp at hc
          subst hd
          simp only [emitted_nil, List.length_nil, Nat.add_zero] at hbig
          omega
        · rw [if_neg hc]
          have hnz2 : ∀ b ∈ txt ++ emitted f (data.take size), b ≠ 0 := by
            intro b hb
            rcases List.mem_append.1 hb with hb | hb
            · exact hnz b hb
            · exact emitted_nonzero _ _ b hb
          exact ih (data.drop size) (txt ++ emitted f (data.take size))
            ((f + (data.take size).length) % 2 ^ 64) hnz2 (Nat.mod_lt _ (by decide))
            (by rw [List.length_append]; exact hfit) (by rw [List.length_append]; omega)
      · rw [if_neg hfit]
        simp [Outcome.flushes]
    · by_cases hfull : txt.length = CAP
      · rw [flushCheck_clean_full txt f out w hnz hfull]
        simp [Outcome.flushes]
      · rw [flushCheck_clean_flush txt f out w hnz (by omega) (by omega)]
        simp only []
        intro hcontra
        have := loopTail_flushes size k _ _ w
          (fun s2 st2 h2 => scanLoop_flushes_mono size hsize k s2 st2 w h2) hcontra
        simp [flush, cleanState] at this

/-! ## The emitted text is the index text -/

theorem entryText_eq_decimal (f : Nat) (h : f + 1 < 2 ^ 63) :
    entryText f = decimal (f + 1) ++ [COMMA] := by
  have h1 : (f + 1) % 2 ^ 64 = f + 1 := Nat.mod_eq_of_lt (by omega)
  have h2 : (decimal (f + 1)).length ≤ 19 :=
    decimal_length_le 19 (f + 1) (by decide) (by norm_num at h ⊢; omega)
  rw [entryText, h1, fmtLLD, if_pos h, List.take_of_length_le h2]

theorem emitted_eq_indexFrom (f : Nat) (l : List Nat) (h : f + l.length < 2 ^ 63) :
    emitted f l = indexFrom f l := by
  induction l generalizing f with
  | nil => rfl
  | cons b bs ih =>
    simp only [List.length_cons] at h
    have h1 : (f + 1) % 2 ^ 64 = f + 1 := Nat.mod_eq_of_lt (by omega)
    rw [emitted_cons, indexFrom, h1, ih (f + 1) (by omega)]
    by_cases hb : b = NL
    · rw [if_pos hb, if_pos hb, entryText_eq_decimal f (by omega)]
    · rw [if_neg hb, if_neg hb]

theorem emitted_eq_indexText (input : List Nat) (h : input.length < 2 ^ 63) :
    emitted 0 input = indexText input := by
  rw [indexText]
  exact emitted_eq_indexFrom 0 input (by omega)

/-! ## Whole runs -/

theorem init_clean : State.init = cleanState [] 0 [] 0 := by
  simp [State.init, cleanState]

theorem collectWith_file (size : Nat) (input : List Nat) :
    collectWith size (Sys.file input)
      = scanLoop size (input.length + 1) { data := input, broken := false } State.init := by
  simp [collectWith, Sys.file]

theorem SIZE_lt : SIZE < MINUS_ONE := by decide

theorem SIZE_pos : 0 < SIZE := by decide

theorem collectWith_clean (size : Nat) (hsize : size < MINUS_ONE) (hpos : 0 < size)
    (input : List Nat) (hfit : (emitted 0 input).length ≤ THRESH) :
    collectWith size (Sys.file input) =
      Outcome.done (cleanState (emitted 0 input) (input.length % 2 ^ 64) (emitted 0 input) 0) := by
  rw [collectWith_file, init_clean]
  have := scanLoop_clean size hsize hpos (input.length + 1) input false [] 0 [] 0
    (by simp) (by decide) (by simpa using hfit) (by omega)
  simpa using this

theorem collectWith_flushes_zero (size : Nat) (hsize : size < MINUS_ONE) (hpos : 0 < size)
    (input : List Nat) (h : (collectWith size (Sys.file input)).flushes = some 0) :
    (emitted 0 input).length ≤ THRESH := by
  by_contra hbig
  rw [collectWith_file, init_clean] at h
  exact scanLoop_clean_flushes size hsize hpos (input.length + 1) input false [] 0 [] 0
    (by simp) (by decide) (by simp) (by simpa using hbig) h

/-! ## Runs chunk by chunk -/

theorem collectWith_file_run (size : Nat) (input : List Nat) :
    collectWith size (Sys.file input) = run size { data := input, broken := false } State.init := by
  rw [collectWith_file, run]

theorem run_step (size : Nat) (hsize : size < MINUS_ONE) (s : Stream) (st : State) :
    run size s st =
      match flushCheck st with
      | .error e => Outcome.fault e
      | .ok st1 =>
        match scanChunk (s.data.take size) st1 with
        | .error e => Outcome.fault e
        | .ok st2 =>
          if s.data.take size = [] then finalWrite st2
          else run size { s with data := s.data.drop size } st2 := by
  rw [run, scanLoop_step size _ s st hsize]
  cases flushCheck st with
  | error e => rfl
  | ok st1 =>
    simp only [loopTail]
    cases scanChunk (s.data.take size) st1 with
    | error e => rfl
    | ok st2 =>
      simp only []
      by_cases hc : s.data.take size = []
      · rw [if_pos hc, if_pos hc]
      · rw [if_neg hc, if_neg hc, run]
        have := drop_length_lt size s.data hc
        exact scanLoop_fuel size hsize _ _ _ st2 (by simp only []; omega) (by simp only []; omega)

theorem run_clean_chunks (size : Nat) (hsize : size < MINUS_ONE) (hpos : 0 < size) (k : Nat)
    (pre rest : List Nat) (br : Bool) (txt : List Nat) (f : Nat) (out : List Nat) (w : Nat)
    (hnz : ∀ b ∈ txt, b ≠ 0) (hf : f < 2 ^ 64) (hpre : pre.length = k * size)
    (hfit : txt.length + (emitted f pre).length ≤ THRESH) :
    run size { data := pre ++ rest, broken := br } (cleanState txt f out w) =
      run size { data := rest, broken := br }
        (cleanState (txt ++ emitted f pre) ((f + pre.length) % 2 ^ 64) out w) := by
  induction k generalizing pre txt f with
  | zero =>
    have hp : pre = [] := List.length_eq_zero.1 (by simpa using hpre)
    subst hp
    have hf2 : f % 18446744073709551616 = f := Nat.mod_eq_of_lt hf
    simp [emitted_nil, hf2]
  | succ k ih =>
    have hT : THRESH < CAP := by decide
    have hle : size ≤ pre.length := by
      rw [hpre, Nat.succ_mul]
      omega
    have htake : (pre ++ rest).take size = pre.take size := List.take_append_of_le_length hle
    have hdrop : (pre ++ rest).drop size = pre.drop size ++ rest :=
      List.drop_append_of_le_length hle
    have hclen : (pre.take size).length = size := by
      rw [List.length_take]
      omega
    have hne : pre.take size ≠ [] := by
      intro h0
      rw [h0] at hclen
      simp at hclen
      omega
    have hsplit := emitted_take_drop f size pre hf
    have hlen : (emitted f pre).length = (emitted f (pre.take size)).length
        + (emitted ((f + (pre.take size).length) % 2 ^ 64) (pre.drop size)).length := by
      have := congrArg List.length hsplit
      rwa [List.length_append] at this
    have hnz2 : ∀ b ∈ txt ++ emitted f (pre.take size), b ≠ 0 := by
      intro b hb
      rcases List.mem_append.1 hb with hb | hb
      · exact hnz b hb
      · exact emitted_nonzero _ _ b hb
    have hplen : (pre.drop size).length = k * size := by
      rw [List.length_drop, hpre, Nat.succ_mul]
      omega
    rw [run_step size hsize, flushCheck_clean txt f out w hnz (by omega)]
    simp only [htake, hdrop]
    rw [scanChunk_clean _ txt f out w (by omega) hf, if_pos (by omega)]
    simp only []
    rw [if_neg hne, ih (pre.drop size) (txt ++ emitted f (pre.take size))
      ((f + (pre.take size).length) % 2 ^ 64) hnz2 (Nat.mod_lt _ (by decide)) hplen
      (by rw [List.length_append]; omega)]
    have hcount : (pre.take size).length + (pre.drop size).length = pre.length := by
      rw [← List.length_append, List.take_append_drop]
    rw [mod_add_mod_64, hcount, List.append_assoc, ← hsplit]

/-- A run that has gone through `k` full chunks without a flush and then meets
a chunk whose text does not fit in the rest of the index buffer. -/
theorem run_overrun (size : Nat) (hsize : size < MINUS_ONE) (hpos : 0 < size) (k : Nat)
    (pre rest : List Nat) (hpre : pre.length = k * size) (hlen : pre.length < 2 ^ 64)
    (hfit : (emitted 0 pre).length ≤ THRESH)
    (hbig : CAP < (emitted 0 pre).length + (emitted pre.length (rest.take size)).length) :
    collectWith size (Sys.file (pre ++ rest)) = Outcome.fault Fault.overrun := by
  have hT : THRESH < CAP := by decide
  have hmod : pre.length % 2 ^ 64 = pre.length := Nat.mod_eq_of_lt hlen
  rw [collectWith_file_run, init_clean,
    run_clean_chunks size hsize hpos k pre rest false [] 0 [] 0 (by simp) (by decide) hpre
      (by simpa using hfit)]
  simp only [List.nil_append, Nat.zero_add, hmod]
  rw [run_step size hsize, flushCheck_clean _ _ _ _ (emitted_nonzero 0 pre) hfit]
  simp only []
  rw [scanChunk_clean _ _ _ _ _ (by omega) hlen, if_neg (by omega)]

/-! ## Length of the text for runs of newlines -/

theorem entryText_length_digits (d f : Nat) (hd : d ≤ 17) (hlo : 10 ^ d ≤ f + 1)
    (hhi : f + 1 < 10 ^ (d + 1)) : (entryText f).length = d + 2 := by
  have h18 : 10 ^ (d + 1) ≤ 10 ^ 18 := Nat.pow_le_pow_right (by decide) (by omega)
  have h63 : (10 : Nat) ^ 18 < 2 ^ 63 := by norm_num
  have h1 := decimal_length_le (d + 1) (f + 1) (by omega) hhi
  have h2 := decimal_length_ge d (f + 1) hlo
  rw [entryText_eq_decimal f (by omega), List.length_append]
  simp only [List.length_singleton]
  omega

theorem emitted_newlines_length (d k f : Nat) (hd : d ≤ 17) (hlo : 10 ^ d ≤ f + 1)
    (hhi : f + k < 10 ^ (d + 1)) : (emitted f (List.replicate k NL)).length = (d + 2) * k := by
  induction k generalizing f with
  | zero => simp [emitted_nil]
  | succ k ih =>
    have h18 : 10 ^ (d + 1) ≤ 10 ^ 18 := Nat.pow_le_pow_right (by decide) (by omega)
    have h64 : (10 : Nat) ^ 18 < 2 ^ 64 := by norm_num
    have hmod : (f + 1) % 2 ^ 64 = f + 1 := Nat.mod_eq_of_lt (by omega)
    rw [List.replicate_succ, emitted_cons, if_pos rfl, hmod, List.length_append,
      entryText_length_digits d f hd hlo (by omega), ih (f + 1) (by omega) (by omega),
      Nat.mul_succ]
    omega

theorem emitted_pad (f n : Nat) (l : List Nat) (hf : f < 2 ^ 64) :
    emitted f (List.replicate n 65 ++ l) = emitted ((f + n) % 2 ^ 64) l := by
  have h : NL ∉ List.replicate n 65 := by
    intro hmem
    have := (List.mem_replicate.1 hmem).2
    simp [NL] at this
  rw [emitted_append f _ l hf, emitted_no_newline f _ h, List.length_replicate, List.nil_append]

theorem emitted_pad_end (f n : Nat) (l : List Nat) (hf : f < 2 ^ 64) :
    emitted f (l ++ List.replicate n 65) = emitted f l := by
  have h : NL ∉ List.replicate n 65 := by
    intro hmem
    have := (List.mem_replicate.1 hmem).2
    simp [NL] at this
  rw [emitted_append f l _ hf, emitted_no_newline _ _ h, List.append_nil]

/-! ## The run on `overrunInput` -/

theorem overrunInput_split :
    overrunInput
      = (List.replicate 1024000 65 ++ List.replicate 1228800 NL) ++ List.replicate 204800 NL := by
  rw [overrunInput, show (1433600 : Nat) = 1228800 + 204800 from rfl, List.replicate_add,
    List.append_assoc]

theorem overrunInput_run : offset_collector (Sys.file overrunInput) = Outcome.fault Fault.overrun := by
  have h1 : (emitted 0 (List.replicate 1024000 65 ++ List.replicate 1228800 NL)).length
      = 9830400 := by
    rw [emitted_pad 0 _ _ (by decide),
      emitted_newlines_length 6 1228800 _ (by decide) (by norm_num) (by norm_num)]
  have h2 : (emitted (List.replicate 1024000 65 ++ List.replicate 1228800 NL).length
      ((List.replicate 204800 NL).take SIZE)).length = 1638400 := by
    rw [List.take_replicate, List.length_append, List.length_replicate, List.length_replicate,
      show min SIZE 204800 = 204800 from rfl,
      emitted_newlines_length 6 204800 _ (by decide) (by norm_num) (by norm_num)]
  rw [overrunInput_split, offset_collector]
  apply run_overrun SIZE SIZE_lt SIZE_pos 11
  · rw [List.length_append, List.length_replicate, List.length_replicate]
    rfl
  · rw [List.length_append, List.length_replicate, List.length_replicate]
    norm_num
  · rw [h1]
    decide
  · rw [h1, h2]
    decide

/-! ## A flush that leaves old text behind -/

theorem flush_clean (txt : List Nat) (f : Nat) (out : List Nat) (w : Nat) :
    flush (cleanState txt f out w) txt.length =
      { offset := List.replicate 10 0
          ++ (txt ++ List.replicate (CAP - txt.length) 0).drop 10,
        mover := 0, fileoff := f, downstream := out ++ txt, wrongHere := w + 1 } := by
  simp only [flush, cleanState, take_clean]

theorem splice_after_flush (txt e : List Nat) (h10 : 10 ≤ e.length) (hle : e.length ≤ txt.length) :
    splice (List.replicate 10 0 ++ (txt ++ List.replicate (CAP - txt.length) 0).drop 10) 0 e
      = e ++ (txt.drop e.length ++ List.replicate (CAP - txt.length) 0) := by
  unfold splice
  simp only [List.take_zero, List.nil_append, Nat.zero_add]
  congr 1
  rw [List.drop_append_eq_append_drop]
  have h1 : List.drop e.length (List.replicate 10 (0 : Nat)) = [] :=
    List.drop_eq_nil_of_le (by simpa using h10)
  rw [h1, List.nil_append, List.drop_drop, List.length_replicate,
    show 10 + (e.length - 10) = e.length by omega, List.drop_append_of_le_length hle]

theorem strlen_stale (txt e : List Nat) (hnz : ∀ b ∈ txt, b ≠ 0) (hez : ∀ b ∈ e, b ≠ 0)
    (hle : e.length ≤ txt.length) (hcap : txt.length < CAP) :
    strlen (e ++ (txt.drop e.length ++ List.replicate (CAP - txt.length) 0))
      = some txt.length := by
  obtain ⟨k, hk⟩ : ∃ k, CAP - txt.length = k + 1 := ⟨CAP - txt.length - 1, by omega⟩
  have hnz2 : ∀ b ∈ e ++ txt.drop e.length, b ≠ 0 := by
    intro b hb
    rcases List.mem_append.1 hb with hb | hb
    · exact hez b hb
    · exact hnz b (List.mem_of_mem_drop hb)
  have := strlen_append_zero (e ++ txt.drop e.length) (List.replicate k 0) hnz2
  rw [hk, List.replicate_succ, ← List.append_assoc, this, List.length_append, List.length_drop]
  congr 1
  omega

theorem take_stale (txt e rest : List Nat) (hle : e.length ≤ txt.length) :
    (e ++ (txt.drop e.length ++ rest)).take txt.length = e ++ txt.drop e.length := by
  rw [← List.append_assoc]
  apply List.take_left'
  rw [List.length_append, List.length_drop]
  omega

/-- The run from a clean buffer holding more than `THRESH` bytes of text, over
a last chunk `tail` whose text `e` has at least 10 bytes: the buffer is flushed,
`e` is stored over its start, and the next check flushes `e` together with the
old text that follows it. -/
theorem run_stale (size : Nat) (hsize : size < MINUS_ONE) (tail : List Nat) (br : Bool)
    (txt : List Nat) (f : Nat) (out : List Nat) (w : Nat) (hnz : ∀ b ∈ txt, b ≠ 0)
    (hf : f < 2 ^ 64) (hthr : THRESH < txt.length) (hcap : txt.length < CAP)
    (hne : tail ≠ []) (htail : tail.length ≤ size) (h10 : 10 ≤ (emitted f tail).length)
    (hle : (emitted f tail).length ≤ txt.length) :
    run size { data := tail, broken := br } (cleanState txt f out w) =
      Outcome.done
        { offset := List.replicate 10 0
            ++ (emitted f tail
                ++ (txt.drop (emitted f tail).length
                    ++ List.replicate (CAP - txt.length) 0)).drop 10,
          mover := 0,
          fileoff := (f + tail.length) % 2 ^ 64,
          downstream := out ++ txt ++ (emitted f tail ++ txt.drop (emitted f tail).length),
          wrongHere := w + 2 } := by
  have htake : tail.take size = tail := List.take_of_length_le htail
  have hdrop : tail.drop size = [] := List.drop_eq_nil_of_le htail
  have hez := emitted_nonzero f tail
  rw [run_step size hsize, flushCheck_clean_flush txt f out w hnz hthr hcap, flush_clean]
  simp only [htake, hdrop]
  rw [scanChunk_eq tail _ (by simp; omega) (by simp) hf]
  simp only [Nat.zero_add]
  rw [if_pos (by omega), splice_after_flush txt _ h10 hle]
  simp only []
  rw [if_neg hne, run_step size hsize]
  simp only [flushCheck, strlen_stale txt _ hnz hez hle hcap, List.take_nil, scanChunk]
  rw [if_pos hthr]
  simp only [flush, if_true, finalWrite, List.replicate_succ, List.cons_append, strlen_zero_cons,
    List.take_zero, List.append_nil, take_stale txt _ _ hle]

theorem run_clean_chunk (size : Nat) (hsize : size < MINUS_ONE) (hpos : 0 < size)
    (c rest : List Nat) (br : Bool) (txt : List Nat) (f : Nat) (out : List Nat) (w : Nat)
    (hnz : ∀ b ∈ txt, b ≠ 0) (hf : f < 2 ^ 64) (hc : c.length = size)
    (hthr : txt.length ≤ THRESH) (hfit : txt.length + (emitted f c).length ≤ CAP) :
    run size { data := c ++ rest, broken := br } (cleanState txt f out w) =
      run size { data := rest, broken := br }
        (cleanState (txt ++ emitted f c) ((f + c.length) % 2 ^ 64) out w) := by
  have hT : THRESH < CAP := by decide
  have htake : (c ++ rest).take size = c := List.take_left' hc
  have hdrop : (c ++ rest).drop size = rest := List.drop_left' hc
  have hne : c ≠ [] := by
    intro h0
    rw [h0] at hc
    simp at hc
    omega
  rw [run_step size hsize, flushCheck_clean txt f out w hnz hthr]
  simp only [htake, hdrop]
  rw [scanChunk_clean _ txt f out w (by omega) hf, if_pos hfit]
  simp only []
  rw [if_neg hne]

/-- The whole run on a file made of `k` full chunks `pre` that leave at most
`THRESH` bytes of text, one more full chunk `c` that takes the text over
`THRESH` but not to `CAP`, and a last chunk `tail`. -/
theorem collectWith_stale (size : Nat) (hsize : size < MINUS_ONE) (hpos : 0 < size) (k : Nat)
    (pre c tail : List Nat) (hpre : pre.length = k * size) (hc : c.length = size)
    (hlen : (pre ++ c).length < 2 ^ 64) (hfit : (emitted 0 pre).length ≤ THRESH)
    (hthr : THRESH < (emitted 0 (pre ++ c)).length) (hcap : (emitted 0 (pre ++ c)).length < CAP)
    (hne : tail ≠ []) (htail : tail.length ≤ size)
    (h10 : 10 ≤ (emitted (pre ++ c).length tail).length)
    (hle : (emitted (pre ++ c).length tail).length ≤ (emitted 0 (pre ++ c)).length) :
    collectWith size (Sys.file ((pre ++ c) ++ tail)) =
      Outcome.done
        { offset := List.replicate 10 0
            ++ (emitted (pre ++ c).length tail
                ++ ((emitted 0 (pre ++ c)).drop (emitted (pre ++ c).length tail).length
                    ++ List.replicate (CAP - (emitted 0 (pre ++ c)).length) 0)).drop 10,
          mover := 0,
          fileoff := ((pre ++ c).length + tail.length) % 2 ^ 64,
          downstream := emitted 0 (pre ++ c)
            ++ (emitted (pre ++ c).length tail
                ++ (emitted 0 (pre ++ c)).drop (emitted (pre ++ c).length tail).length),
          wrongHere := 2 } := by
  have hplen : pre.length < 2 ^ 64 := by
    rw [List.length_append] at hlen
    omega
  have hmod : pre.length % 2 ^ 64 = pre.length := Nat.mod_eq_of_lt hplen
  have hmod2 : (pre.length + c.length) % 2 ^ 64 = (pre ++ c).length := by
    rw [← List.length_append]
    exact Nat.mod_eq_of_lt hlen
  have hsplit : emitted 0 (pre ++ c) = emitted 0 pre ++ emitted pre.length c := by
    rw [emitted_append 0 pre c (by decide), Nat.zero_add, hmod]
  have hlens : (emitted 0 (pre ++ c)).length
      = (emitted 0 pre).length + (emitted pre.length c).length := by
    rw [hsplit, List.length_append]
  rw [collectWith_file_run, init_clean, List.append_assoc,
    run_clean_chunks size hsize hpos k pre (c ++ tail) false [] 0 [] 0 (by simp) (by decide)
      hpre (by simpa using hfit)]
  simp only [List.nil_append, Nat.zero_add, hmod]
  rw [run_clean_chunk size hsize hpos c tail false _ _ [] 0 (emitted_nonzero 0 pre) hplen hc
    hfit (by omega), ← hsplit, hmod2]
  rw [run_stale size hsize tail false _ _ [] 0 (emitted_nonzero 0 (pre ++ c)) hlen hthr hcap
    hne htail h10 hle]
  simp only [List.nil_append, Nat.zero_add]

/-! ## The run on `staleInput` -/

theorem staleHead_split :
    staleHead = (List.replicate 1024000 65 ++ List.replicate 1228800 NL)
      ++ (List.replicate 21199 NL ++ List.replicate 183601 65) := by
  rw [staleHead, show (1249999 : Nat) = 1228800 + 21199 from rfl, List.replicate_add]
  simp only [List.append_assoc]

theorem staleHead_length : staleHead.length = 2457600 := by
  simp only [staleHead, List.length_append, List.length_replicate]

theorem staleHead_emitted : emitted 0 staleHead = emitted 1024000 (List.replicate 1249999 NL) := by
  have h0 : (0 + 1024000) % 2 ^ 64 = 1024000 := by norm_num
  rw [staleHead, emitted_pad 0 _ _ (by decide), emitted_pad_end _ _ _ (by decide), h0]

theorem staleHead_emitted_length : (emitted 0 staleHead).length = 9999992 := by
  rw [staleHead_emitted,
    emitted_newlines_length 6 1249999 _ (by decide) (by norm_num) (by norm_num)]

theorem staleTail_emitted :
    emitted 2457600 [NL, NL] = decimal 2457601 ++ [COMMA] ++ (decimal 2457602 ++ [COMMA]) := by
  rw [emitted_eq_indexFrom _ _ (by norm_num)]
  simp [indexFrom]

theorem staleTail_emitted_length : (emitted 2457600 [NL, NL]).length = 16 := by
  rw [staleTail_emitted]
  decide

theorem staleInput_run :
    offset_collector (Sys.file staleInput) =
      Outcome.done
        { offset := List.replicate 10 0
            ++ (emitted 2457600 [NL, NL]
                ++ ((emitted 0 staleHead).drop 16 ++ List.replicate 8 0)).drop 10,
          mover := 0,
          fileoff := 2457602,
          downstream := emitted 0 staleHead
            ++ (emitted 2457600 [NL, NL] ++ (emitted 0 staleHead).drop 16),
          wrongHere := 2 } := by
  have hA : (emitted 0 (List.replicate 1024000 65 ++ List.replicate 1228800 NL)).length
      = 9830400 := by
    rw [emitted_pad 0 _ _ (by decide),
      emitted_newlines_length 6 1228800 _ (by decide) (by norm_num) (by norm_num)]
  have hL := staleHead_length
  have hT := staleHead_emitted_length
  have hE := staleTail_emitted_length
  rw [staleHead_split] at hL hT
  have := collectWith_stale SIZE SIZE_lt SIZE_pos 11
    (List.replicate 1024000 65 ++ List.replicate 1228800 NL)
    (List.replicate 21199 NL ++ List.replicate 183601 65) [NL, NL]
    (by simp only [List.length_append, List.length_replicate]; rfl)
    (by simp only [List.length_append, List.length_replicate]; rfl)
    (by rw [hL]; norm_num) (by rw [hA]; decide) (by rw [hT]; decide) (by rw [hT]; decide)
    (by simp) (by decide) (by rw [hL, hE]; decide) (by rw [hL, hE, hT]; decide)
  have h8 : CAP - 9999992 = 8 := by decide
  have h2 : (2457600 + [NL, NL].length) % 2 ^ 64 = 2457602 := by decide
  rw [hL, hT, hE, ← staleHead_split, h8, h2] at this
  rw [offset_collector, staleInput, this]

/-! ## The output on `staleInput` -/

theorem staleInput_length : staleInput.length = 2457602 := by
  rw [staleInput, List.length_append, staleHead_length]
  rfl

theorem staleHead_index : indexText staleHead = emitted 0 staleHead :=
  (emitted_eq_indexText staleHead (by rw [staleHead_length]; norm_num)).symm

theorem staleInput_index :
    indexText staleInput = emitted 0 staleHead ++ emitted 2457600 [NL, NL] := by
  rw [← emitted_eq_indexText staleInput (by rw [staleInput_length]; norm_num), staleInput,
    emitted_append 0 _ _ (by decide), staleHead_length]
  rfl

theorem staleInput_output :
    (offset_collector (Sys.file staleInput)).output
      = some (indexText staleInput ++ (indexText staleHead).drop 16) := by
  rw [staleInput_run, staleInput_index, staleHead_index]
  simp only [Outcome.output, List.append_assoc]

theorem staleHead_emitted_drop :
    (emitted 0 staleHead).drop 16 = emitted 1024002 (List.replicate 1249997 NL) := by
  have h2 : (emitted 1024000 (List.replicate 2 NL)).length = 16 := by
    rw [emitted_newlines_length 6 2 _ (by decide) (by norm_num) (by norm_num)]
  have h0 : (1024000 + (List.replicate 2 NL).length) % 2 ^ 64 = 1024002 := by
    rw [List.length_replicate]
    norm_num
  rw [staleHead_emitted, show (1249999 : Nat) = 2 + 1249997 from rfl, List.replicate_add,
    emitted_append _ _ _ (by norm_num), h0]
  exact List.drop_left' h2

theorem staleHead_emitted_drop_length : ((emitted 0 staleHead).drop 16).length = 9999976 := by
  rw [staleHead_emitted_drop,
    emitted_newlines_length 6 1249997 _ (by decide) (by norm_num) (by norm_num)]

theorem staleHead_emitted_last :
    emitted 1024002 (List.replicate 1249997 NL)
      = emitted 1024002 (List.replicate 1249996 NL) ++ (decimal 2273999 ++ [COMMA]) := by
  have h0 : (1024002 + (List.replicate 1249996 NL).length) % 2 ^ 64 = 2273998 := by
    rw [List.length_replicate]
    norm_num
  have h1 : emitted 2273998 (List.replicate 1 NL) = decimal 2273999 ++ [COMMA] := by
    rw [emitted_eq_indexFrom _ _ (by rw [List.length_replicate]; norm_num)]
    simp [indexFrom]
  rw [show (1249997 : Nat) = 1249996 + 1 from rfl, List.replicate_add,
    emitted_append _ _ _ (by norm_num), h0, h1]

/-! ## Commas -/

theorem fmtLLD_no_comma (i : Nat) : COMMA ∉ fmtLLD i := by
  intro hb
  unfold fmtLLD at hb
  split at hb
  · have := decimal_digits i _ hb
    simp [COMMA] at this
  · rcases List.mem_cons.1 hb with hb | hb
    · simp [COMMA] at hb
    · have := decimal_digits _ _ hb
      simp [COMMA] at this

theorem entryText_count_comma (f : Nat) : (entryText f).count COMMA = 1 := by
  have h : COMMA ∉ (fmtLLD ((f + 1) % 2 ^ 64)).take 19 :=
    fun hb => fmtLLD_no_comma _ (List.mem_of_mem_take hb)
  rw [entryText, List.count_append, List.count_eq_zero.2 h]
  simp

theorem emitted_count_comma (f : Nat) (l : List Nat) :
    (emitted f l).count COMMA = l.count NL := by
  induction l generalizing f with
  | nil => rfl
  | cons b bs ih =>
    rw [emitted_cons, List.count_append, ih, List.count_cons]
    by_cases hb : b = NL
    · rw [if_pos hb, entryText_count_comma]
      simp [hb]
      omega
    · rw [if_neg hb]
      simp [hb]

/-! ## Fields -/

theorem fields_entry (a rest : List Nat) (h : COMMA ∉ a) :
    fields (a ++ COMMA :: rest) = a :: fields rest := by
  induction a with
  | nil => simp [fields]
  | cons x xs ih =>
    have hx : x ≠ COMMA := fun hx => h (by simp [hx])
    have hxs : COMMA ∉ xs := fun hm => h (by simp [hm])
    rw [List.cons_append, fields, if_neg hx, ih hxs]

theorem decimal_no_comma (n : Nat) : COMMA ∉ decimal n := by
  intro hb
  have := decimal_digits n _ hb
  simp [COMMA] at this

theorem fields_entryText (f : Nat) (rest : List Nat) :
    fields (entryText f ++ rest) = (fmtLLD ((f + 1) % 2 ^ 64)).take 19 :: fields rest := by
  have h : COMMA ∉ (fmtLLD ((f + 1) % 2 ^ 64)).take 19 :=
    fun hb => fmtLLD_no_comma _ (List.mem_of_mem_take hb)
  rw [entryText, List.append_assoc, List.singleton_append, fields_entry _ _ h]

theorem fields_emitted (f : Nat) (l rest : List Nat) :
    ∃ front, fields (emitted f l ++ rest) = front ++ fields rest := by
  induction l generalizing f with
  | nil => exact ⟨[], rfl⟩
  | cons b bs ih =>
    obtain ⟨front, hfront⟩ := ih ((f + 1) % 2 ^ 64)
    rw [emitted_cons, List.append_assoc]
    by_cases hb : b = NL
    · rw [if_pos hb, fields_entryText, hfront]
      exact ⟨_ :: front, rfl⟩
    · rw [if_neg hb, List.nil_append, hfront]
      exact ⟨front, rfl⟩

/-! ## The read guard -/

theorem scanLoop_no_readAbort (size : Nat) (hsize : size < MINUS_ONE) (fuel : Nat) (s : Stream)
    (st st2 : State) : scanLoop size fuel s st ≠ Outcome.readAbort st2 := by
  induction fuel generalizing s st with
  | zero => simp [scanLoop]
  | succ k ih =>
    rw [scanLoop_step size k s st hsize]
    cases flushCheck st with
    | error e => simp
    | ok st1 =>
      simp only [loopTail]
      cases scanChunk (s.data.take size) st1 with
      | error e => simp
      | ok st3 =>
        simp only []
        split
        · unfold finalWrite
          split <;> simp
        · exact ih _ _

theorem fread_length_le (size : Nat) (s : Stream) : (fread size s).1.length ≤ size := by
  simp [fread, List.length_take]

theorem collectWith_no_readAbort (size : Nat) (hsize : size < MINUS_ONE) (sys : Sys)
    (st : State) : collectWith size sys ≠ Outcome.readAbort st := by
  unfold collectWith
  split
  · simp
  · split
    · have h1 := fread_length_le size sys.stream
      have h2 : (fread size sys.stream).1.length % 2 ^ 64 ≠ MINUS_ONE := by
        unfold MINUS_ONE at *
        omega
      rw [if_neg h2]
      simp
    · exact scanLoop_no_readAbort size hsize _ _ _ _

theorem first_chunk_overrun (size : Nat) (hsize : size < MINUS_ONE) (hpos : 0 < size)
    (input : List Nat) (hbig : CAP < (emitted 0 (input.take size)).length) :
    collectWith size (Sys.file input) = Outcome.fault Fault.overrun := by
  have := run_overrun size hsize hpos 0 [] input (by simp) (by decide) (by decide)
    (by simpa [emitted_nil] using hbig)
  simpa using this

/-! ## Runs after the buffer has gone over the flush bound -/

theorem cleanState_eq_dirty (txt : List Nat) (f : Nat) (out : List Nat) (w : Nat) :
    cleanState txt f out w = dirtyState txt txt.length f out w := rfl

theorem flushCheck_dirty (body : List Nat) (m f : Nat) (out : List Nat) (w : Nat)
    (hnz : ∀ b ∈ body, b ≠ 0) (hthr : THRESH < body.length) (hcap : body.length < CAP) :
    flushCheck (dirtyState body m f out w) =
      .ok { offset := List.replicate 10 0
              ++ (body ++ List.replicate (CAP - body.length) 0).drop 10,
            mover := 0, fileoff := f, downstream := out ++ body, wrongHere := w + 1 } := by
  unfold flushCheck
  simp only [dirtyState, strlen_clean body hnz hcap]
  rw [if_pos (by omega)]
  simp only [flush, take_clean]

theorem scanChunk_flushed (c body : List Nat) (f : Nat) (out : List Nat) (w : Nat)
    (hf : f < 2 ^ 64) (hcap : body.length < CAP) (h10 : 10 ≤ (emitted f c).length)
    (hle : (emitted f c).length ≤ body.length) :
    scanChunk c { offset := List.replicate 10 0
                    ++ (body ++ List.replicate (CAP - body.length) 0).drop 10,
                  mover := 0, fileoff := f, downstream := out, wrongHere := w } =
      .ok (dirtyState (emitted f c ++ body.drop (emitted f c).length) (emitted f c).length
        ((f + c.length) % 2 ^ 64) out w) := by
  have hlen : (emitted f c ++ body.drop (emitted f c).length).length = body.length := by
    rw [List.length_append, List.length_drop]
    omega
  rw [scanChunk_eq c _ (by simp; omega) (by simp) hf]
  simp only [Nat.zero_add]
  rw [if_pos (by omega), splice_after_flush body _ h10 hle]
  simp only [dirtyState, hlen, List.append_assoc]

theorem run_dirty_chunk (size : Nat) (hsize : size < MINUS_ONE) (data : List Nat) (br : Bool)
    (body : List Nat) (m f : Nat) (out : List Nat) (w : Nat) (hnz : ∀ b ∈ body, b ≠ 0)
    (hf : f < 2 ^ 64) (hthr : THRESH < body.length) (hcap : body.length < CAP)
    (hne : data.take size ≠ []) (h10 : 10 ≤ (emitted f (data.take size)).length)
    (hle : (emitted f (data.take size)).length ≤ body.length) :
    run size { data := data, broken := br } (dirtyState body m f out w) =
      run size { data := data.drop size, broken := br }
        (dirtyState
          (emitted f (data.take size) ++ body.drop (emitted f (data.take size)).length)
          (emitted f (data.take size)).length ((f + (data.take size).length) % 2 ^ 64)
          (out ++ body) (w + 1)) := by
  rw [run_step size hsize, flushCheck_dirty body m f out w hnz hthr hcap]
  simp only []
  rw [scanChunk_flushed _ body f _ _ hf hcap h10 hle]
  simp only []
  rw [if_neg hne]

theorem run_dirty_end (size : Nat) (hsize : size < MINUS_ONE) (br : Bool) (body : List Nat)
    (m f : Nat) (out : List Nat) (w : Nat) (hnz : ∀ b ∈ body, b ≠ 0)
    (hthr : THRESH < body.length) (hcap : body.length < CAP) :
    run size { data := [], broken := br } (dirtyState body m f out w) =
      Outcome.done
        { offset := List.replicate 10 0
            ++ (body ++ List.replicate (CAP - body.length) 0).drop 10,
          mover := 0, fileoff := f, downstream := out ++ body, wrongHere := w + 1 } := by
  rw [run_step size hsize, flushCheck_dirty body m f out w hnz hthr hcap]
  simp only [List.take_nil, scanChunk, if_true, finalWrite, List.replicate_succ,
    List.cons_append, strlen_zero_cons, List.take_zero, List.append_nil]

theorem collectWith_clean_head (size : Nat) (hsize : size < MINUS_ONE) (hpos : 0 < size)
    (k : Nat) (pre c tail : List Nat) (hpre : pre.length = k * size) (hc : c.length = size)
    (hlen : (pre ++ c).length < 2 ^ 64) (hfit : (emitted 0 pre).length ≤ THRESH)
    (hcap : (emitted 0 (pre ++ c)).length ≤ CAP) :
    collectWith size (Sys.file ((pre ++ c) ++ tail)) =
      run size { data := tail, broken := false }
        (cleanState (emitted 0 (pre ++ c)) (pre ++ c).length [] 0) := by
  have hplen : pre.length < 2 ^ 64 := by
    rw [List.length_append] at hlen
    omega
  have hmod : pre.length % 2 ^ 64 = pre.length := Nat.mod_eq_of_lt hplen
  have hmod2 : (pre.length + c.length) % 2 ^ 64 = (pre ++ c).length := by
    rw [← List.length_append]
    exact Nat.mod_eq_of_lt hlen
  have hsplit : emitted 0 (pre ++ c) = emitted 0 pre ++ emitted pre.length c := by
    rw [emitted_append 0 pre c (by decide), Nat.zero_add, hmod]
  have hlens : (emitted 0 (pre ++ c)).length
      = (emitted 0 pre).length + (emitted pre.length c).length := by
    rw [hsplit, List.length_append]
  rw [collectWith_file_run, init_clean, List.append_assoc,
    run_clean_chunks size hsize hpos k pre (c ++ tail) false [] 0 [] 0 (by simp) (by decide)
      hpre (by simpa using hfit)]
  simp only [List.nil_append, Nat.zero_add, hmod]
  rw [run_clean_chunk size hsize hpos c tail false _ _ [] 0 (emitted_nonzero 0 pre) hplen hc
    hfit (by omega), ← hsplit, hmod2]

/-! ## The runs on `twiceStaleInput` -/

theorem twiceStale_tail_take :
    (([NL, NL] ++ List.replicate 204798 65) ++ [NL, NL]).take SIZE
      = [NL, NL] ++ List.replicate 204798 65 :=
  List.take_left' (by rw [List.length_append, List.length_replicate]; rfl)

theorem twiceStale_tail_drop :
    (([NL, NL] ++ List.replicate 204798 65) ++ [NL, NL]).drop SIZE = [NL, NL] :=
  List.drop_left' (by rw [List.length_append, List.length_replicate]; rfl)

theorem twiceStale_tail_length :
    (([NL, NL] ++ List.replicate 204798 65) ++ [NL, NL]).length = 204802 := by
  rw [List.length_append, List.length_append, List.length_replicate]
  rfl

theorem twiceStale_first_emitted :
    emitted 2457600 ([NL, NL] ++ List.replicate 204798 65) = emitted 2457600 [NL, NL] :=
  emitted_pad_end _ _ _ (by norm_num)

theorem twiceStale_second_length : (emitted 2662400 [NL, NL]).length = 16 := by
  have := emitted_newlines_length 6 2 2662400 (by decide) (by norm_num) (by norm_num)
  exact this

theorem twiceStale_tail_emitted :
    emitted 2457600 (([NL, NL] ++ List.replicate 204798 65) ++ [NL, NL])
      = emitted 2457600 [NL, NL] ++ emitted 2662400 [NL, NL] := by
  have h0 : (2457600 + ([NL, NL] ++ List.replicate 204798 65).length) % 2 ^ 64 = 2662400 := by
    rw [List.length_append, List.length_replicate]
    rfl
  rw [emitted_append _ _ _ (by norm_num), twiceStale_first_emitted, h0]

theorem twiceStale_run_small :
    (collectWith SIZE (Sys.file twiceStaleInput)).output =
      some (emitted 0 staleHead
        ++ (emitted 2457600 [NL, NL] ++ (emitted 0 staleHead).drop 16)
        ++ (emitted 2662400 [NL, NL] ++ (emitted 0 staleHead).drop 16)) := by
  have hA : (emitted 0 (List.replicate 1024000 65 ++ List.replicate 1228800 NL)).length
      = 9830400 := by
    rw [emitted_pad 0 _ _ (by decide),
      emitted_newlines_length 6 1228800 _ (by decide) (by norm_num) (by norm_num)]
  have hL := staleHead_length
  have hT := staleHead_emitted_length
  have hE := staleTail_emitted_length
  have hE2 := twiceStale_second_length
  have hnz := emitted_nonzero 0 staleHead
  have hbody : (emitted 2457600 [NL, NL] ++ (emitted 0 staleHead).drop 16).length = 9999992 := by
    rw [List.length_append, List.length_drop, hT, hE]
  have hbnz : ∀ b ∈ emitted 2457600 [NL, NL] ++ (emitted 0 staleHead).drop 16, b ≠ 0 := by
    intro b hb
    rcases List.mem_append.1 hb with hb | hb
    · exact emitted_nonzero _ _ b hb
    · exact hnz b (List.mem_of_mem_drop hb)
  have hdrop : (emitted 2457600 [NL, NL] ++ (emitted 0 staleHead).drop 16).drop 16
      = (emitted 0 staleHead).drop 16 := List.drop_left' hE
  have h2 : (2457600 + ([NL, NL] ++ List.replicate 204798 65).length) % 2 ^ 64 = 2662400 := by
    rw [List.length_append, List.length_replicate]
    rfl
  have htk : ([NL, NL] : List Nat).take SIZE = [NL, NL] := rfl
  have hdk : ([NL, NL] : List Nat).drop SIZE = [] := rfl
  rw [staleHead_split] at hL hT
  have hhead := collectWith_clean_head SIZE SIZE_lt SIZE_pos 11
    (List.replicate 1024000 65 ++ List.replicate 1228800 NL)
    (List.replicate 21199 NL ++ List.replicate 183601 65)
    (([NL, NL] ++ List.replicate 204798 65) ++ [NL, NL])
    (by simp only [List.length_append, List.length_replicate]; rfl)
    (by simp only [List.length_append, List.length_replicate]; rfl)
    (by rw [hL]; norm_num) (by rw [hA]; decide) (by rw [hT]; decide)
  rw [hL, ← staleHead_split] at hhead
  rw [← staleHead_split] at hT
  rw [twiceStaleInput, hhead, cleanState_eq_dirty,
    run_dirty_chunk SIZE SIZE_lt _ false _ _ _ _ _ hnz (by norm_num) (by rw [hT]; decide)
      (by rw [hT]; decide)
      (by rw [twiceStale_tail_take]; exact fun h => List.noConfusion h)
      (by rw [twiceStale_tail_take, twiceStale_first_emitted, hE]; decide)
      (by rw [twiceStale_tail_take, twiceStale_first_emitted, hE, hT]; decide)]
  rw [twiceStale_tail_take, twiceStale_tail_drop, twiceStale_first_emitted, hE, h2]
  rw [run_dirty_chunk SIZE SIZE_lt _ false _ _ _ _ _ hbnz (by norm_num) (by rw [hbody]; decide)
      (by rw [hbody]; decide)
      (by rw [htk]; exact fun h => List.noConfusion h)
      (by rw [htk, hE2]; decide)
      (by rw [htk, hE2, hbody]; decide)]
  rw [htk, hdk, hE2, hdrop]
  have hbody2 : (emitted 2662400 [NL, NL] ++ (emitted 0 staleHead).drop 16).length = 9999992 := by
    rw [List.length_append, List.length_drop, hT, hE2]
  have hbnz2 : ∀ b ∈ emitted 2662400 [NL, NL] ++ (emitted 0 staleHead).drop 16, b ≠ 0 := by
    intro b hb
    rcases List.mem_append.1 hb with hb | hb
    · exact emitted_nonzero _ _ b hb
    · exact hnz b (List.mem_of_mem_drop hb)
  rw [run_dirty_end SIZE SIZE_lt false _ _ _ _ _ hbnz2 (by rw [hbody2]; decide)
    (by rw [hbody2]; decide), List.nil_append]
  rfl

theorem staleHead_split_large :
    staleHead = (List.replicate 1024000 65 ++ List.replicate 1024000 NL)
      ++ (List.replicate 225999 NL ++ List.replicate 183601 65) := by
  rw [staleHead, show (1249999 : Nat) = 1024000 + 225999 from rfl, List.replicate_add]
  simp only [List.append_assoc]

theorem twiceStale_run_large :
    (collectWith (2 * SIZE) (Sys.file twiceStaleInput)).output =
      some (emitted 0 staleHead
        ++ ((emitted 2457600 [NL, NL] ++ emitted 2662400 [NL, NL])
            ++ (emitted 0 staleHead).drop 32)) := by
  have hA : (emitted 0 (List.replicate 1024000 65 ++ List.replicate 1024000 NL)).length
      = 8192000 := by
    rw [emitted_pad 0 _ _ (by decide),
      emitted_newlines_length 6 1024000 _ (by decide) (by norm_num) (by norm_num)]
  have hL := staleHead_length
  have hT := staleHead_emitted_length
  have hE : (emitted 2457600 (([NL, NL] ++ List.replicate 204798 65) ++ [NL, NL])).length
      = 32 := by
    rw [twiceStale_tail_emitted, List.length_append, staleTail_emitted_length,
      twiceStale_second_length]
  rw [staleHead_split_large] at hL hT
  have := collectWith_stale (2 * SIZE) (by decide) (by decide) 5
    (List.replicate 1024000 65 ++ List.replicate 1024000 NL)
    (List.replicate 225999 NL ++ List.replicate 183601 65)
    (([NL, NL] ++ List.replicate 204798 65) ++ [NL, NL])
    (by simp only [List.length_append, List.length_replicate]; rfl)
    (by simp only [List.length_append, List.length_replicate]; rfl)
    (by rw [hL]; norm_num) (by rw [hA]; decide) (by rw [hT]; decide) (by rw [hT]; decide)
    (fun h => List.noConfusion h) (by rw [twiceStale_tail_length]; decide)
    (by rw [hL, hE]; decide) (by rw [hL, hE, hT]; decide)
  rw [hL, hT, hE, ← staleHead_split_large, twiceStale_tail_emitted] at this
  rw [twiceStaleInput, this]
  rfl

theorem indexText_example : indexText [65, 10, 66, 66, 10, 67, 67, 67] = [50, 44, 53, 44] := by
  decide

/-- When the whole index text stays within the flush bound, the final state
of a run does not depend on the chunk size. -/
theorem chunk_size_irrelevant_small (c1 c2 : Nat) (h1 : 0 < c1) (h1b : c1 < MINUS_ONE)
    (h2 : 0 < c2) (h2b : c2 < MINUS_ONE) (input : List Nat)
    (hfit : (emitted 0 input).length ≤ THRESH) :
    collectWith c1 (Sys.file input) = collectWith c2 (Sys.file input) := by
  rw [collectWith_clean c1 h1b h1 input hfit, collectWith_clean c2 h2b h2 input hfit]

/-! ## The claims on the inputs -/

/-- C1 (defect of the flush): on `staleInput` the output file is not the index
of the input; it is the index followed by 9,999,976 bytes of text that the
second flush finds behind the two new entries. -/
theorem stale_output_is_not_index :
    (offset_collector (Sys.file staleInput)).output
        = some (indexText staleInput ++ (indexText staleHead).drop 16)
      ∧ ((indexText staleHead).drop 16).length = 9999976
      ∧ (offset_collector (Sys.file staleInput)).output ≠ some (indexText staleInput) := by
  have hlen : ((indexText staleHead).drop 16).length = 9999976 := by
    rw [staleHead_index]
    exact staleHead_emitted_drop_length
  refine ⟨staleInput_output, hlen, ?_⟩
  rw [staleInput_output]
  intro h
  have h2 := congrArg List.length (Option.some.inj h)
  rw [List.length_append, hlen] at h2
  omega

/-- C2 (defect of the flush check): on `overrunInput`, which holds bytes
`'\n'`, the run writes past the end of the index buffer and leaves no defined
output, so no field of the output holds any offset. -/
theorem overrun_no_output :
    NL ∈ overrunInput ∧ (offset_collector (Sys.file overrunInput)).output = none := by
  constructor
  · rw [overrunInput]
    apply List.mem_append_right
    exact List.mem_replicate.2 ⟨by decide, rfl⟩
  · rw [overrunInput_run]
    rfl

/-- C3 (defect of the flush): `staleInput` holds 1,250,001 bytes `'\n'` and
the output on it holds 2,499,998 commas. -/
theorem stale_output_comma_count :
    staleInput.count NL = 1250001
      ∧ ∃ out, (offset_collector (Sys.file staleInput)).output = some out
          ∧ out.count COMMA = 2499998 := by
  have hhead : staleHead.count NL = 1249999 := by
    simp only [staleHead, List.count_append, List.count_replicate]
    decide
  constructor
  · rw [staleInput, List.count_append, hhead]
    decide
  · refine ⟨_, staleInput_output, ?_⟩
    rw [staleInput_index, staleHead_index, staleHead_emitted_drop]
    simp only [List.count_append, emitted_count_comma, hhead, List.count_replicate]
    decide

/-- C4 (defect of the flush): the numbers read back from the output on
`staleInput` are not strictly increasing; the offset 2457602 is followed by
the offset 1024003. -/
theorem stale_output_not_increasing :
    ∃ out, (offset_collector (Sys.file staleInput)).output = some out
      ∧ ¬ (offsetsOf out).Pairwise (fun a b => a < b) := by
  refine ⟨_, staleInput_output, ?_⟩
  have h3 : emitted 1024002 (List.replicate 1249997 NL)
      = decimal 1024003 ++ COMMA :: emitted 1024003 (List.replicate 1249996 NL) := by
    have h0 : (1024002 + 1) % 2 ^ 64 = 1024003 := by norm_num
    rw [show (1249997 : Nat) = 1249996 + 1 from rfl, List.replicate_succ, emitted_cons,
      if_pos rfl, entryText_eq_decimal _ (by norm_num), h0, List.append_assoc]
    rfl
  have h12 : ∀ rest : List Nat, emitted 2457600 [NL, NL] ++ rest
      = decimal 2457601 ++ COMMA :: (decimal 2457602 ++ COMMA :: rest) := by
    intro rest
    rw [staleTail_emitted]
    simp only [List.append_assoc, List.singleton_append, List.cons_append, List.nil_append]
  obtain ⟨front, hfront⟩ := fields_emitted 0 staleHead
    (emitted 2457600 [NL, NL] ++ emitted 1024002 (List.replicate 1249997 NL))
  have hrest : fields (emitted 2457600 [NL, NL] ++ emitted 1024002 (List.replicate 1249997 NL))
      = decimal 2457601 :: decimal 2457602 :: decimal 1024003
          :: fields (emitted 1024003 (List.replicate 1249996 NL)) := by
    rw [h12, h3, fields_entry _ _ (decimal_no_comma _), fields_entry _ _ (decimal_no_comma _),
      fields_entry _ _ (decimal_no_comma _)]
  intro hp
  rw [staleInput_index, staleHead_index, staleHead_emitted_drop, List.append_assoc, offsetsOf,
    hfront, hrest, List.map_append] at hp
  have hp2 := (List.pairwise_append.1 hp).2.1
  simp only [List.map_cons, List.pairwise_cons] at hp2
  have hlt := hp2.2.1 (parseDecimal (decimal 1024003)) (List.mem_cons_self _ _)
  revert hlt
  decide

/-- C5 (defect of the flush check): on `twiceStaleInput` the run with
`SIZE = 0x32000` and the run with `SIZE = 0x64000` both reach their end, and
they write outputs of 29,999,976 and of 19,999,984 bytes; on `staleInput` the
run with the chunk size equal to the file length, 2457602, writes past the end
of the index buffer, and the run with `SIZE = 0x32000` does not. -/
theorem chunk_size_changes_outcome :
    (∃ out1 out2, (collectWith SIZE (Sys.file twiceStaleInput)).output = some out1
        ∧ (collectWith (2 * SIZE) (Sys.file twiceStaleInput)).output = some out2
        ∧ out1.length = 29999976 ∧ out2.length = 19999984)
      ∧ collectWith 2457602 (Sys.file staleInput) = Outcome.fault Fault.overrun
      ∧ (collectWith SIZE (Sys.file staleInput)).output
          ≠ (collectWith 2457602 (Sys.file staleInput)).output := by
  have hT := staleHead_emitted_length
  have hE := staleTail_emitted_length
  have hE2 := twiceStale_second_length
  have hover : collectWith 2457602 (Sys.file staleInput) = Outcome.fault Fault.overrun := by
    have htake : staleInput.take 2457602 = staleInput :=
      List.take_of_length_le (by rw [staleInput_length])
    have hlen : (emitted 0 staleInput).length = 10000008 := by
      rw [emitted_eq_indexText _ (by rw [staleInput_length]; norm_num), staleInput_index,
        List.length_append, staleHead_emitted_length, staleTail_emitted_length]
    apply first_chunk_overrun 2457602 (by decide) (by decide)
    rw [htake, hlen]
    decide
  refine ⟨⟨_, _, twiceStale_run_small, twiceStale_run_large, ?_, ?_⟩, hover, ?_⟩
  · simp only [List.length_append, List.length_drop, hT, hE, hE2]
  · simp only [List.length_append, List.length_drop, hT, hE, hE2]
  · have h1 := staleInput_output
    rw [offset_collector] at h1
    rw [h1, hover]
    intro h
    cases h

/-- Runs from a zero-filled index buffer: when the run of `offset_collector`
on a file shorter than `2 ^ 63` bytes reaches its end with the flush branch
never taken, the output file holds the complete index: `decimal (p + 1)` and a
comma for every `'\n'` at position `p`, in order. -/
theorem no_flush_output_complete (input : List Nat) (hlen : input.length < 2 ^ 63)
    (h : (offset_collector (Sys.file input)).flushes = some 0) :
    (offset_collector (Sys.file input)).output = some (indexText input) := by
  have hfit := collectWith_flushes_zero SIZE SIZE_lt SIZE_pos input h
  rw [offset_collector, collectWith_clean SIZE SIZE_lt SIZE_pos input hfit,
    emitted_eq_indexText input hlen]
  rfl

set_option maxRecDepth 100000 in
theorem no_flush_output_complete_witness :
    ([65, 10, 66, 66, 10, 67, 67, 67] : List Nat).length < 2 ^ 63
      ∧ (offset_collector (Sys.file [65, 10, 66, 66, 10, 67, 67, 67])).flushes = some 0
      ∧ (offset_collector (Sys.file [65, 10, 66, 66, 10, 67, 67, 67])).output
          = some (indexText [65, 10, 66, 66, 10, 67, 67, 67]) :=
  ⟨by decide, by decide,
    no_flush_output_complete [65, 10, 66, 66, 10, 67, 67, 67] (by decide) (by decide)⟩

/-- C7 (defect of the flush check): on `overrunInput` the index buffer holds
9,830,400 bytes of text when the twelfth chunk starts, so the check does not
fire; the twelfth chunk needs 1,638,400 more bytes, and in it an append writes
past the end of the 10,000,000-byte buffer. -/
theorem overrun_on_large_input :
    (emitted 0 (overrunInput.take (11 * SIZE))).length = 9830400
      ∧ (emitted (11 * SIZE) ((overrunInput.drop (11 * SIZE)).take SIZE)).length = 1638400
      ∧ offset_collector (Sys.file overrunInput) = Outcome.fault Fault.overrun := by
  have hlen : (List.replicate 1024000 65 ++ List.replicate 1228800 NL).length = 11 * SIZE := by
    rw [List.length_append, List.length_replicate, List.length_replicate]
    rfl
  refine ⟨?_, ?_, overrunInput_run⟩
  · rw [overrunInput_split, List.take_left' hlen, emitted_pad 0 _ _ (by decide),
      emitted_newlines_length 6 1228800 _ (by decide) (by norm_num) (by norm_num)]
  · rw [overrunInput_split, List.drop_left' hlen, List.take_replicate,
      show min SIZE 204800 = 204800 from rfl,
      emitted_newlines_length 6 204800 _ (by decide) (by decide) (by decide)]

/-- Runs from a zero-filled index buffer: on an input without a byte `'\n'`
the run of `offset_collector` reaches its end, nothing has been written to the
output file, and the index buffer and its write cursor are as they were at the
start. -/
theorem no_newline_empty_output (input : List Nat) (h : NL ∉ input) :
    ∃ st, offset_collector (Sys.file input) = Outcome.done st
      ∧ st.downstream = [] ∧ st.mover = 0 ∧ st.offset = State.init.offset
      ∧ st.wrongHere = 0 := by
  have he := emitted_no_newline 0 input h
  have := collectWith_clean SIZE SIZE_lt SIZE_pos input (by rw [he]; decide)
  rw [he] at this
  exact ⟨_, this, rfl, rfl, by simp [cleanState, State.init], rfl⟩

theorem no_newline_empty_output_witness :
    NL ∉ ([65, 66, 67, 68, 69, 70, 71] : List Nat)
      ∧ ∃ st, offset_collector (Sys.file [65, 66, 67, 68, 69, 70, 71]) = Outcome.done st
        ∧ st.downstream = [] ∧ st.mover = 0 ∧ st.offset = State.init.offset
        ∧ st.wrongHere = 0 :=
  ⟨by decide, no_newline_empty_output [65, 66, 67, 68, 69, 70, 71] (by decide)⟩

/-- C9 (defect of the flush): `staleInput` has 2,457,602 bytes and ends with
`'\n'`, and the output on it ends with `2273999,` and not with `2457602,`. -/
theorem stale_output_last_offset :
    staleInput.length = 2457602 ∧ staleInput.getLast? = some NL
      ∧ ∃ out, (offset_collector (Sys.file staleInput)).output = some out
          ∧ (∃ front, out = front ++ (decimal 2273999 ++ [COMMA]))
          ∧ ¬ ∃ front, out = front ++ (decimal 2457602 ++ [COMMA]) := by
  refine ⟨staleInput_length, ?_, _, staleInput_output, ?_⟩
  · rw [staleInput]
    simp
  · have hout : indexText staleInput ++ (indexText staleHead).drop 16
        = (indexText staleInput ++ emitted 1024002 (List.replicate 1249996 NL))
            ++ (decimal 2273999 ++ [COMMA]) := by
      rw [staleHead_index, staleHead_emitted_drop, staleHead_emitted_last, List.append_assoc]
    constructor
    · exact ⟨_, hout⟩
    · rintro ⟨front, hfront⟩
      rw [hout] at hfront
      have := (List.append_inj' hfront (by decide)).2
      revert this
      decide

/-- C10 (defect of the read guard): the guard `length == -1` never holds, so
no run takes the branch that reports a read error; on a stream that delivers
`"A\n"` and then fails, `fread` reports the error and `offset_collector`
reaches its end as on a file `"A\n"`, with the output `2,`. -/
theorem read_error_not_reported :
    (∀ (sys : Sys) (st : State), offset_collector sys ≠ Outcome.readAbort st)
      ∧ (fread SIZE brokenSys.stream).2.1 = ReadStatus.ioError
      ∧ (offset_collector brokenSys).output = some [50, 44] := by
  refine ⟨fun sys st => collectWith_no_readAbort SIZE SIZE_lt sys st, by decide, ?_⟩
  decide

/-! ## Allocation -/

/-- C11 (missing check of the first `malloc`): when the chunk buffer cannot be
allocated, `offset_collector` reports it and exits before the loop; when the
index buffer cannot be allocated and the chunk buffer can, nothing is reported:
the first chunk is read into the chunk buffer and `strlen` is called on the
NULL pointer. -/
theorem index_alloc_failure_unchecked :
    (∀ (a : Bool) (s : Stream),
        offset_collector { offsetAlloc := a, buffAlloc := false, stream := s }
          = Outcome.allocAbort)
      ∧ (∀ s : Stream,
        offset_collector { offsetAlloc := false, buffAlloc := true, stream := s }
          = Outcome.fault Fault.nullDeref)
      ∧ (fread SIZE { data := [65, NL], broken := false }).1 = [65, NL] := by
  refine ⟨fun a s => by simp [offset_collector, collectWith], fun s => ?_, by decide⟩
  have h1 := fread_length_le SIZE s
  have h2 : (fread SIZE s).1.length % 2 ^ 64 ≠ MINUS_ONE := by
    have := SIZE_lt
    unfold MINUS_ONE at *
    omega
  simp only [offset_collector, collectWith]
  rw [if_pos trivial, if_neg h2]
  simp

/-! ## What a flush writes -/

theorem staleInput_reaches_staleState :
    offset_collector (Sys.file staleInput)
      = run SIZE { data := [], broken := false } staleState := by
  have hA : (emitted 0 (List.replicate 1024000 65 ++ List.replicate 1228800 NL)).length
      = 9830400 := by
    rw [emitted_pad 0 _ _ (by decide),
      emitted_newlines_length 6 1228800 _ (by decide) (by norm_num) (by norm_num)]
  have hL := staleHead_length
  have hT := staleHead_emitted_length
  have hE := staleTail_emitted_length
  have hnz := emitted_nonzero 0 staleHead
  have htk : ([NL, NL] : List Nat).take SIZE = [NL, NL] := rfl
  have hdk : ([NL, NL] : List Nat).drop SIZE = [] := rfl
  have h2 : (2457600 + ([NL, NL] : List Nat).length) % 2 ^ 64 = 2457602 := by decide
  rw [staleHead_split] at hL hT
  have hhead := collectWith_clean_head SIZE SIZE_lt SIZE_pos 11
    (List.replicate 1024000 65 ++ List.replicate 1228800 NL)
    (List.replicate 21199 NL ++ List.replicate 183601 65) [NL, NL]
    (by simp only [List.length_append, List.length_replicate]; rfl)
    (by simp only [List.length_append, List.length_replicate]; rfl)
    (by rw [hL]; norm_num) (by rw [hA]; decide) (by rw [hT]; decide)
  rw [hL, ← staleHead_split] at hhead
  rw [← staleHead_split] at hT
  rw [offset_collector, staleInput, hhead, cleanState_eq_dirty,
    run_dirty_chunk SIZE SIZE_lt _ false _ _ _ _ _ hnz (by norm_num) (by rw [hT]; decide)
      (by rw [hT]; decide)
      (by rw [htk]; exact fun h => List.noConfusion h)
      (by rw [htk, hE]; decide)
      (by rw [htk, hE, hT]; decide)]
  rw [htk, hdk, hE, h2, List.nil_append, staleState]

theorem staleState_body_length :
    (emitted 2457600 [NL, NL] ++ (emitted 0 staleHead).drop 16).length = 9999992 := by
  rw [List.length_append, List.length_drop, staleHead_emitted_length, staleTail_emitted_length]

theorem staleState_body_nonzero :
    ∀ b ∈ emitted 2457600 [NL, NL] ++ (emitted 0 staleHead).drop 16, b ≠ 0 := by
  intro b hb
  rcases List.mem_append.1 hb with hb | hb
  · exact emitted_nonzero _ _ b hb
  · exact emitted_nonzero 0 staleHead b (List.mem_of_mem_drop hb)

theorem staleState_strlen : strlen staleState.offset = some 9999992 := by
  have := strlen_clean _ staleState_body_nonzero (by rw [staleState_body_length]; decide)
  rw [staleState_body_length] at this
  rw [staleState, dirtyState, staleState_body_length]
  exact this

theorem staleState_used : staleState.offset.take staleState.mover = emitted 2457600 [NL, NL] := by
  rw [staleState, dirtyState]
  simp only []
  rw [List.append_assoc]
  exact List.take_left' staleTail_emitted_length

/-- C12 (defect of the flush): the run on `staleInput` reaches `staleState`,
where the part of the buffer in use is the 16 bytes in front of `mover`; the
check fires there, and the flush writes those 16 bytes followed by 9,999,976
bytes of old text. Every flush writes the first `strlen(offset)` bytes of the
buffer, and leaves the write cursor at the buffer start and `strlen(offset)`
at 0. -/
theorem flush_writes_strlen_bytes :
    offset_collector (Sys.file staleInput)
        = run SIZE { data := [], broken := false } staleState
      ∧ staleState.mover = 16
      ∧ staleState.offset.take staleState.mover = emitted 2457600 [NL, NL]
      ∧ (∃ st, flushCheck staleState = .ok st
          ∧ st.downstream = staleState.downstream
              ++ (emitted 2457600 [NL, NL] ++ (emitted 0 staleHead).drop 16))
      ∧ ((emitted 0 staleHead).drop 16).length = 9999976
      ∧ (∀ (st : State) (n : Nat),
          (flush st n).downstream = st.downstream ++ st.offset.take n
            ∧ (flush st n).mover = 0 ∧ strlen (flush st n).offset = some 0) := by
  refine ⟨staleInput_reaches_staleState, ?_, staleState_used, ?_,
    staleHead_emitted_drop_length, ?_⟩
  · rw [staleState, dirtyState]
  · refine ⟨_, flushCheck_dirty _ 16 2457602 (emitted 0 staleHead) 1 staleState_body_nonzero
      (by rw [staleState_body_length]; decide) (by rw [staleState_body_length]; decide), ?_⟩
    simp only [staleState, dirtyState]
  · intro st n
    exact ⟨rfl, rfl, by simp [flush, List.replicate_succ, strlen]⟩

/-! ## The frame of a flush -/

theorem strlen_lt_length (l : List Nat) (n : Nat) (h : strlen l = some n) : n < l.length := by
  induction l generalizing n with
  | nil => simp [strlen] at h
  | cons b bs ih =>
    rw [strlen] at h
    split at h
    · cases h
      simp
    · split at h
      · cases h
      · rename_i m hm
        cases h
        have := ih m hm
        simp
        omega

theorem flush_offset_low (st : State) (n i : Nat) (hi : i < 10) :
    (flush st n).offset[i]? = some 0 := by
  simp only [flush]
  rw [List.getElem?_append_left (by simpa using hi)]
  rw [List.getElem?_replicate, if_pos hi]

theorem flush_offset_high (st : State) (n i : Nat) (hi : 10 ≤ i) :
    (flush st n).offset[i]? = st.offset[i]? := by
  simp only [flush]
  rw [List.getElem?_append_right (by simpa using hi), List.getElem?_drop]
  simp only [List.length_replicate]
  congr 1
  omega

theorem flush_offset_length (st : State) (n : Nat) (h : 10 ≤ st.offset.length) :
    (flush st n).offset.length = st.offset.length := by
  simp only [flush, List.length_append, List.length_replicate, List.length_drop]
  omega

/-- C13: when the check `strlen(offset) > 9999990` fires, the flush step sets
the bytes 0..9 of the index buffer to zero and `mover` to the buffer start,
and leaves every byte at an index from 10 on, the length of the buffer and
`fileoff` as they were; the iteration goes on with the chunk that was read. -/
theorem flush_frame (st : State) (n : Nat) (hs : strlen st.offset = some n)
    (hn : THRESH < n) :
    ∃ st1, flushCheck st = .ok st1
      ∧ (∀ i, i < 10 → st1.offset[i]? = some 0)
      ∧ st1.mover = 0
      ∧ (∀ i, 10 ≤ i → st1.offset[i]? = st.offset[i]?)
      ∧ st1.offset.length = st.offset.length
      ∧ st1.fileoff = st.fileoff
      ∧ (∀ (size fuel : Nat) (s : Stream), size < MINUS_ONE →
          scanLoop size (fuel + 1) s st = loopTail size fuel s st1) := by
  have hlen := strlen_lt_length _ _ hs
  have hT : THRESH = 9999990 := rfl
  have hc : flushCheck st = .ok (flush st n) := by
    unfold flushCheck
    rw [hs]
    simp only []
    rw [if_pos hn]
  refine ⟨flush st n, hc, fun i hi => flush_offset_low st n i hi, rfl,
    fun i hi => flush_offset_high st n i hi, flush_offset_length st n (by omega), rfl, ?_⟩
  intro size fuel s hsize
  rw [scanLoop_step size fuel s st hsize, hc]

theorem flush_frame_witness :
    strlen staleState.offset = some 9999992 ∧ THRESH < 9999992
      ∧ ∃ st1, flushCheck staleState = .ok st1
        ∧ (∀ i, i < 10 → st1.offset[i]? = some 0)
        ∧ st1.mover = 0
        ∧ (∀ i, 10 ≤ i → st1.offset[i]? = staleState.offset[i]?)
        ∧ st1.offset.length = staleState.offset.length
        ∧ st1.fileoff = staleState.fileoff
        ∧ (∀ (size fuel : Nat) (s : Stream), size < MINUS_ONE →
            scanLoop size (fuel + 1) s staleState = loopTail size fuel s st1) :=
  ⟨staleState_strlen, by decide, flush_frame staleState 9999992 staleState_strlen (by decide)⟩

/-! ## The loop as a sequence of chunks -/

theorem take_eq_nil_of_pos (size : Nat) (data : List Nat) (hpos : 0 < size)
    (h : data.take size = []) : data = [] := by
  cases data with
  | nil => rfl
  | cons x xs =>
    cases size with
    | zero => omega
    | succ n => simp at h

theorem chunksOf_join (size : Nat) (hpos : 0 < size) (fuel : Nat) (data : List Nat)
    (hfuel : data.length ≤ fuel) : (chunksOf size fuel data).flatten = data := by
  induction fuel generalizing data with
  | zero =>
    have : data = [] := List.length_eq_zero.1 (by omega)
    subst this
    rfl
  | succ k ih =>
    rw [chunksOf]
    by_cases hc : data.take size = []
    · rw [if_pos hc, take_eq_nil_of_pos size data hpos hc]
      rfl
    · have hd := drop_length_lt size data hc
      rw [if_neg hc, List.flatten_cons, ih _ (by omega), List.take_append_drop]

theorem scanLoop_chunks (size : Nat) (hsize : size < MINUS_ONE) (fuel : Nat) (s : Stream)
    (st : State) (hfuel : s.data.length < fuel) :
    scanLoop size fuel s st =
      match iterChunks (chunksOf size fuel s.data) st with
      | .error e => Outcome.fault e
      | .ok st2 => lastIteration st2 := by
  induction fuel generalizing s st with
  | zero => omega
  | succ k ih =>
    rw [scanLoop_step size k s st hsize, chunksOf]
    by_cases hc : s.data.take size = []
    · rw [if_pos hc]
      simp only [iterChunks, lastIteration, loopTail, hc, scanChunk, if_true]
    · have hd := drop_length_lt size s.data hc
      rw [if_neg hc]
      simp only [iterChunks, loopTail]
      cases flushCheck st with
      | error e => rfl
      | ok st1 =>
        simp only []
        cases scanChunk (s.data.take size) st1 with
        | error e => rfl
        | ok st2 =>
          simp only []
          rw [if_neg hc]
          exact ih _ st2 (by simp only []; omega)

/-! ## The running offset -/

theorem appendOffset_fileoff (st st1 : State) (h : appendOffset st = .ok st1) :
    st1.fileoff = st.fileoff := by
  unfold appendOffset at h
  simp only [] at h
  split at h
  · cases h
  · split at h
    · cases h
    · split at h
      · cases h
      · cases h
        rfl

theorem scanChunk_fileoff (chunk : List Nat) (st st2 : State) (hf : st.fileoff < 2 ^ 64)
    (h : scanChunk chunk st = .ok st2) :
    st2.fileoff = (st.fileoff + chunk.length) % 2 ^ 64 := by
  induction chunk generalizing st with
  | nil =>
    simp only [scanChunk] at h
    cases h
    simp only [List.length_nil, Nat.add_zero]
    exact (Nat.mod_eq_of_lt hf).symm
  | cons b bs ih =>
    have hmod : ∀ x : Nat, x % 2 ^ 64 < 2 ^ 64 := fun x => Nat.mod_lt _ (by decide)
    rw [scanChunk] at h
    split at h
    · split at h
      · cases h
      · rename_i st1 h1
        have := ih _ (by simpa using hmod _) h
        simp only [] at this
        rw [this, appendOffset_fileoff st st1 h1, mod_add_mod_64]
        simp only [List.length_cons]
        congr 2
        omega
    · have := ih _ (by simpa using hmod _) h
      simp only [] at this
      rw [this, mod_add_mod_64]
      simp only [List.length_cons]
      congr 2
      omega

theorem flushCheck_fileoff (st st1 : State) (h : flushCheck st = .ok st1) :
    st1.fileoff = st.fileoff := by
  unfold flushCheck at h
  split at h
  · cases h
  · split at h
    · cases h
      rfl
    · cases h
      rfl

theorem iterChunks_fileoff (cs : List (List Nat)) (st st2 : State) (hf : st.fileoff < 2 ^ 64)
    (h : iterChunks cs st = .ok st2) :
    st2.fileoff = (st.fileoff + cs.flatten.length) % 2 ^ 64 := by
  induction cs generalizing st with
  | nil =>
    simp only [iterChunks] at h
    cases h
    simp only [List.flatten_nil, List.length_nil, Nat.add_zero]
    exact (Nat.mod_eq_of_lt hf).symm
  | cons c cs ih =>
    rw [iterChunks] at h
    split at h
    · cases h
    · rename_i st1 h1
      split at h
      · cases h
      · rename_i st3 h3
        have hf1 : st1.fileoff < 2 ^ 64 := by
          rw [flushCheck_fileoff st st1 h1]
          exact hf
        have e3 := scanChunk_fileoff c st1 st3 hf1 h3
        have := ih st3 (by rw [e3]; exact Nat.mod_lt _ (by decide)) h
        rw [this, e3, flushCheck_fileoff st st1 h1, mod_add_mod_64, List.flatten_cons,
          List.length_append]

theorem lastIteration_fileoff (st st2 : State) (h : lastIteration st = Outcome.done st2) :
    st2.fileoff = st.fileoff := by
  unfold lastIteration at h
  split at h
  · cases h
  · rename_i st1 h1
    unfold finalWrite at h
    split at h
    · cases h
    · cases h
      exact flushCheck_fileoff st st1 h1

theorem scanChunk_append (a b : List Nat) (st : State) :
    scanChunk (a ++ b) st =
      match scanChunk a st with
      | .error e => .error e
      | .ok st1 => scanChunk b st1 := by
  induction a generalizing st with
  | nil => rfl
  | cons x xs ih =>
    rw [List.cons_append, scanChunk, scanChunk]
    split
    · cases appendOffset st with
      | error e => rfl
      | ok st1 => exact ih _
    · exact ih _

theorem collectWith_chunks (size : Nat) (hsize : size < MINUS_ONE) (input : List Nat) :
    collectWith size (Sys.file input) =
      match iterChunks (chunksOf size (input.length + 1) input) State.init with
      | .error e => Outcome.fault e
      | .ok st => lastIteration st := by
  rw [collectWith_file]
  exact scanLoop_chunks size hsize (input.length + 1) _ State.init (by simp)

/-- C14: `fileoff` starts at 0; when the scan has gone through the chunks `cs`
of the input and the first bytes `a` of the next chunk, whatever their values
and whether or not the check before that chunk has flushed, `fileoff` is the
number of bytes scanned; a flush leaves it as it is; and when the run ends it
is the length of the input. -/
theorem fileoff_counts_bytes (input : List Nat) (hlen : input.length < 2 ^ 64) :
    State.init.fileoff = 0
      ∧ (∀ (cs : List (List Nat)) (c : List Nat) (rest : List (List Nat)) (a b : List Nat)
          (st st1 st2 : State),
          chunksOf SIZE (input.length + 1) input = cs ++ c :: rest → c = a ++ b →
          iterChunks cs State.init = .ok st → flushCheck st = .ok st1 →
          scanChunk a st1 = .ok st2 → st2.fileoff = cs.flatten.length + a.length)
      ∧ (∀ st st1 : State, flushCheck st = .ok st1 → st1.fileoff = st.fileoff)
      ∧ (∀ st : State, offset_collector (Sys.file input) = Outcome.done st →
          st.fileoff = input.length) := by
  have hjoin := chunksOf_join SIZE SIZE_pos (input.length + 1) input (by omega)
  have h0 : State.init.fileoff = 0 := rfl
  refine ⟨h0, ?_, flushCheck_fileoff, ?_⟩
  · intro cs c rest a b st st1 st2 hcs hc hiter hflush hscan
    have e1 := iterChunks_fileoff cs State.init st (by rw [h0]; decide) hiter
    have e2 := flushCheck_fileoff st st1 hflush
    rw [h0, Nat.zero_add] at e1
    have hsum : cs.flatten.length + (a.length + (b.length + rest.flatten.length))
        = input.length := by
      have := congrArg List.length hjoin
      rw [hcs, hc, List.flatten_append, List.flatten_cons] at this
      simp only [List.length_append] at this
      omega
    have hlt : cs.flatten.length < 2 ^ 64 := by omega
    have e3 := scanChunk_fileoff a st1 st2
      (by rw [e2, e1]; exact Nat.mod_lt _ (by decide)) hscan
    rw [e3, e2, e1, Nat.mod_eq_of_lt hlt]
    exact Nat.mod_eq_of_lt (by omega)
  · intro st hdone
    rw [offset_collector, collectWith_chunks SIZE SIZE_lt input] at hdone
    split at hdone
    · cases hdone
    · rename_i st2 hiter
      have e1 := iterChunks_fileoff _ State.init st2 (by rw [h0]; decide) hiter
      rw [h0, Nat.zero_add, hjoin, Nat.mod_eq_of_lt hlen] at e1
      rw [lastIteration_fileoff st2 st hdone, e1]

theorem fileoff_counts_bytes_witness :
    ([65, NL] : List Nat).length < 2 ^ 64
      ∧ ∀ st : State, offset_collector (Sys.file [65, NL]) = Outcome.done st → st.fileoff = 2 :=
  ⟨by decide, (fileoff_counts_bytes [65, NL] (by decide)).2.2.2⟩

/-! ## The encoding of one offset -/

theorem parseDecimal_append (l : List Nat) (d : Nat) :
    parseDecimal (l ++ [d]) = 10 * parseDecimal l + (d - 48) := by
  simp [parseDecimal, List.foldl_append]

theorem parseDecimal_decimal (n : Nat) : parseDecimal (decimal n) = n := by
  induction n using Nat.strong_induction_on with
  | _ n ih =>
    by_cases h : n < 10
    · rw [decimal_small n h]
      simp [parseDecimal]
    · rw [decimal_step n h, parseDecimal_append, ih (n / 10) (by omega)]
      omega

theorem decimal_head (n : Nat) (h : 1 ≤ n) :
    ∃ d rest, decimal n = d :: rest ∧ 49 ≤ d ∧ d ≤ 57 := by
  induction n using Nat.strong_induction_on with
  | _ n ih =>
    by_cases h10 : n < 10
    · exact ⟨48 + n, [], decimal_small n h10, by omega, by omega⟩
    · obtain ⟨d, rest, hd, h1, h2⟩ := ih (n / 10) (by omega) (by omega)
      exact ⟨d, rest ++ [48 + n % 10], by rw [decimal_step n h10, hd]; rfl, h1, h2⟩

theorem init_offset_length : State.init.offset.length = CAP := by
  simp [State.init]

theorem splice_window (mem : List Nat) (pos : Nat) (bytes : List Nat) (h : pos ≤ mem.length) :
    ((splice mem pos bytes).drop pos).take bytes.length = bytes := by
  unfold splice
  rw [List.drop_left' (by simp; omega)]
  exact List.take_left' rfl

theorem entryText_sign :
    entryText (2 ^ 63 - 1)
      = [45, 57, 50, 50, 51, 51, 55, 50, 48, 51, 54, 56, 53, 52, 55, 55, 53, 56, 48, 44] := by
  decide

theorem entryText_wrap : entryText (2 ^ 64 - 1) = [48, 44] := by
  decide

theorem appendOffset_window (st : State) (hlenO : st.offset.length = CAP)
    (hfit : st.mover + (entryText st.fileoff).length ≤ CAP) :
    ∃ st1, appendOffset st = .ok st1
      ∧ st1.mover = st.mover + (entryText st.fileoff).length
      ∧ (st1.offset.drop st.mover).take (entryText st.fileoff).length = entryText st.fileoff
      ∧ st1.offset.take st.mover = st.offset.take st.mover := by
  have hm : st.mover ≤ CAP := by omega
  rw [appendOffset_eq st hlenO hm, if_pos hfit]
  exact ⟨_, rfl, rfl, splice_window _ _ _ (by omega), splice_take_left _ _ _ (by omega)⟩

/-- C15, as stated, fails: with the running offset at `2 ^ 63 - 1` the text
appended for a `'\n'` is `-922337203685477580,` (a sign, and the last digit cut
off) and not `9223372036854775808,`, and reading the field back does not give
`2 ^ 63`; with the running offset at `2 ^ 64 - 1` the text appended is `0,`. -/
theorem encoding_wrong_from_2_pow_63 :
    (∃ st, appendOffset signState = .ok st ∧ st.mover = 20
        ∧ st.offset.take 20
            = [45, 57, 50, 50, 51, 51, 55, 50, 48, 51, 54, 56, 53, 52, 55, 55, 53, 56, 48, 44])
      ∧ decimal (2 ^ 63 - 1 + 1) ++ [COMMA]
          = [57, 50, 50, 51, 51, 55, 50, 48, 51, 54, 56, 53, 52, 55, 55, 53, 56, 48, 56, 44]
      ∧ parseDecimal [45, 57, 50, 50, 51, 51, 55, 50, 48, 51, 54, 56, 53, 52, 55, 55, 53, 56, 48]
          ≠ 2 ^ 63 - 1 + 1
      ∧ (∃ st, appendOffset wrapState = .ok st ∧ st.mover = 2
          ∧ st.offset.take 2 = [48, 44]) := by
  refine ⟨?_, by decide, by decide, ?_⟩
  · have hf : signState.fileoff = 2 ^ 63 - 1 := rfl
    obtain ⟨st1, h1, h2, h3, _⟩ := appendOffset_window signState init_offset_length
      (by rw [hf, entryText_sign]; decide)
    rw [hf, entryText_sign] at h2 h3
    exact ⟨st1, h1, h2, h3⟩
  · have hf : wrapState.fileoff = 2 ^ 64 - 1 := rfl
    obtain ⟨st1, h1, h2, h3, _⟩ := appendOffset_window wrapState init_offset_length
      (by rw [hf, entryText_wrap]; decide)
    rw [hf, entryText_wrap] at h2 h3
    exact ⟨st1, h1, h2, h3⟩

/-- C15, amended: when a `'\n'` is scanned with the running offset `r` and
`r + 1 < 2 ^ 63`, and the entry fits in the index buffer, the bytes stored from
`mover` on are the decimal digits of `r + 1` (digits only, the first of them not
`0`) and one comma, the bytes in front of `mover` stay as they are, `mover`
advances by the number of digits plus one, and reading the digits back gives
`r + 1`. -/
theorem encoding_below_2_pow_63 (st : State) (hr : st.fileoff + 1 < 2 ^ 63)
    (hlenO : st.offset.length = CAP)
    (hfit : st.mover + (decimal (st.fileoff + 1)).length + 1 ≤ CAP) :
    ∃ st1, appendOffset st = .ok st1
      ∧ (st1.offset.drop st.mover).take ((decimal (st.fileoff + 1)).length + 1)
          = decimal (st.fileoff + 1) ++ [COMMA]
      ∧ st1.offset.take st.mover = st.offset.take st.mover
      ∧ st1.mover = st.mover + (decimal (st.fileoff + 1)).length + 1
      ∧ (∀ b ∈ decimal (st.fileoff + 1), 48 ≤ b ∧ b ≤ 57)
      ∧ (∃ d rest, decimal (st.fileoff + 1) = d :: rest ∧ 49 ≤ d ∧ d ≤ 57)
      ∧ parseDecimal (decimal (st.fileoff + 1)) = st.fileoff + 1 := by
  have he := entryText_eq_decimal st.fileoff hr
  have hl : (entryText st.fileoff).length = (decimal (st.fileoff + 1)).length + 1 := by
    rw [he, List.length_append]
    rfl
  obtain ⟨st1, h1, h2, h3, h4⟩ := appendOffset_window st hlenO (by rw [hl]; omega)
  rw [hl] at h2 h3
  rw [he] at h3
  exact ⟨st1, h1, h3, h4, by rw [h2, Nat.add_assoc], decimal_digits _,
    decimal_head _ (by omega), parseDecimal_decimal _⟩

theorem encoding_below_2_pow_63_witness :
    State.init.fileoff + 1 < 2 ^ 63 ∧ State.init.offset.length = CAP
      ∧ State.init.mover + (decimal (State.init.fileoff + 1)).length + 1 ≤ CAP
      ∧ ∃ st1, appendOffset State.init = .ok st1
        ∧ (st1.offset.drop State.init.mover).take ((decimal (State.init.fileoff + 1)).length + 1)
            = decimal (State.init.fileoff + 1) ++ [COMMA]
        ∧ st1.offset.take State.init.mover = State.init.offset.take State.init.mover
        ∧ st1.mover = State.init.mover + (decimal (State.init.fileoff + 1)).length + 1
        ∧ (∀ b ∈ decimal (State.init.fileoff + 1), 48 ≤ b ∧ b ≤ 57)
        ∧ (∃ d rest, decimal (State.init.fileoff + 1) = d :: rest ∧ 49 ≤ d ∧ d ≤ 57)
        ∧ parseDecimal (decimal (State.init.fileoff + 1)) = State.init.fileoff + 1 :=
  ⟨by decide, init_offset_length, by decide,
    encoding_below_2_pow_63 State.init (by decide) init_offset_length (by decide)⟩

/-! ## Termination -/

theorem entryText_length_le (f : Nat) :
    (entryText (f % 2 ^ 64)).length ≤ (decimal (f + 1)).length + 1 := by
  by_cases h : f + 1 < 2 ^ 63
  · have hf : f % 2 ^ 64 = f := Nat.mod_eq_of_lt (by omega)
    rw [hf, entryText_eq_decimal f h, List.length_append]
    rfl
  · have h18 : (10 : Nat) ^ 18 ≤ f + 1 := by
      have : (10 : Nat) ^ 18 ≤ 2 ^ 63 := by norm_num
      omega
    have hge := decimal_length_ge 18 (f + 1) h18
    rw [entryText_length, List.length_take]
    omega

theorem emitted_length_le (f : Nat) (l : List Nat) :
    (emitted (f % 2 ^ 64) l).length ≤ (indexFrom f l).length := by
  induction l generalizing f with
  | nil => simp [emitted, indexFrom]
  | cons b bs ih =>
    have hmod : (f % 2 ^ 64 + 1) % 2 ^ 64 = (f + 1) % 2 ^ 64 := by
      rw [Nat.add_mod, Nat.mod_mod, ← Nat.add_mod]
    have := ih (f + 1)
    have he := entryText_length_le f
    rw [emitted_cons, indexFrom, hmod, List.length_append, List.length_append]
    by_cases hb : b = NL
    · rw [if_pos hb, if_pos hb, List.length_append]
      simp only [List.length_singleton]
      omega
    · rw [if_neg hb, if_neg hb]
      simp only [List.length_nil]
      omega

theorem emitted_length_le_indexText (input : List Nat) :
    (emitted 0 input).length ≤ (indexText input).length := by
  have := emitted_length_le 0 input
  simpa [indexText] using this

/-- C17: on an input whose complete index text has at most 9,999,990 bytes,
with the index buffer zero-filled at the start, the run reaches its end without
any access outside the index buffer, the flush branch is never taken, and at
the end the write cursor is at most 9,999,990 bytes into the buffer and
`strlen(offset)` is the distance of the write cursor from the buffer start. -/
theorem small_index_is_safe (input : List Nat) (h : (indexText input).length ≤ THRESH) :
    ∃ st, offset_collector (Sys.file input) = Outcome.done st
      ∧ st.wrongHere = 0 ∧ st.mover ≤ THRESH ∧ st.offset.length = CAP
      ∧ strlen st.offset = some st.mover := by
  have hle := emitted_length_le_indexText input
  have hfit : (emitted 0 input).length ≤ THRESH := by omega
  have hT : THRESH < CAP := by decide
  refine ⟨_, collectWith_clean SIZE SIZE_lt SIZE_pos input hfit, rfl, hfit,
    cleanState_length _ _ _ _ (by omega), ?_⟩
  exact strlen_clean _ (emitted_nonzero 0 input) (by omega)

theorem small_index_is_safe_witness :
    (indexText [65, 10, 66, 66, 10, 67, 67, 67]).length ≤ THRESH
      ∧ ∃ st, offset_collector (Sys.file [65, 10, 66, 66, 10, 67, 67, 67]) = Outcome.done st
        ∧ st.wrongHere = 0 ∧ st.mover ≤ THRESH ∧ st.offset.length = CAP
        ∧ strlen st.offset = some st.mover :=
  ⟨by decide, small_index_is_safe [65, 10, 66, 66, 10, 67, 67, 67] (by decide)⟩

/-- The run on `staleHead`: the text goes over the flush bound in the last
chunk, the check fires in the iteration whose read returns 0 bytes, and the
output is the index, written once. -/
theorem staleHead_run_output :
    (offset_collector (Sys.file staleHead)).output = some (indexText staleHead)
      ∧ (offset_collector (Sys.file staleHead)).flushes = some 1 := by
  have hA : (emitted 0 (List.replicate 1024000 65 ++ List.replicate 1228800 NL)).length
      = 9830400 := by
    rw [emitted_pad 0 _ _ (by decide),
      emitted_newlines_length 6 1228800 _ (by decide) (by norm_num) (by norm_num)]
  have hL := staleHead_length
  have hT := staleHead_emitted_length
  have hnz := emitted_nonzero 0 staleHead
  rw [staleHead_split] at hL hT
  have hhead := collectWith_clean_head SIZE SIZE_lt SIZE_pos 11
    (List.replicate 1024000 65 ++ List.replicate 1228800 NL)
    (List.replicate 21199 NL ++ List.replicate 183601 65) []
    (by simp only [List.length_append, List.length_replicate]; rfl)
    (by simp only [List.length_append, List.length_replicate]; rfl)
    (by rw [hL]; norm_num) (by rw [hA]; decide) (by rw [hT]; decide)
  rw [hL, ← staleHead_split, List.append_nil] at hhead
  rw [← staleHead_split] at hT
  rw [offset_collector, hhead, cleanState_eq_dirty,
    run_dirty_end SIZE SIZE_lt false _ _ _ _ _ hnz (by rw [hT]; decide) (by rw [hT]; decide),
    staleHead_index, List.nil_append]
  exact ⟨rfl, rfl⟩

/-! ## After the last flush -/

theorem scanChunk_no_newline (chunk : List Nat) (st : State) (h : NL ∉ chunk) :
    ∃ st2, scanChunk chunk st = .ok st2 ∧ st2.offset = st.offset ∧ st2.mover = st.mover
      ∧ st2.downstream = st.downstream ∧ st2.wrongHere = st.wrongHere := by
  induction chunk generalizing st with
  | nil => exact ⟨st, rfl, rfl, rfl, rfl, rfl⟩
  | cons b bs ih =>
    have hb : b ≠ NL := fun hb => h (by simp [hb])
    have hbs : NL ∉ bs := fun hm => h (by simp [hm])
    rw [scanChunk, if_neg hb]
    obtain ⟨st2, h1, h2, h3, h4, h5⟩ := ih { st with fileoff := (st.fileoff + 1) % 2 ^ 64 } hbs
    exact ⟨st2, h1, h2, h3, h4, h5⟩

theorem finalWrite_empty (st : State) (h : strlen st.offset = some 0) :
    finalWrite st = Outcome.done st := by
  unfold finalWrite
  rw [h]
  simp

theorem flushCheck_empty (st : State) (h : strlen st.offset = some 0) :
    flushCheck st = .ok st := by
  unfold flushCheck
  rw [h]
  simp [THRESH]

theorem loopTail_quiet (size fuel : Nat) (s : Stream) (st : State)
    (ih : ∀ (s2 : Stream) (st2 : State), strlen st2.offset = some 0 → NL ∉ s2.data →
      s2.data.length < fuel →
      ∃ st3, scanLoop size fuel s2 st2 = Outcome.done st3 ∧ st3.offset = st2.offset
        ∧ st3.downstream = st2.downstream ∧ st3.wrongHere = st2.wrongHere)
    (hs : strlen st.offset = some 0) (hnl : NL ∉ s.data) (hfuel : s.data.length ≤ fuel) :
    ∃ st3, loopTail size fuel s st = Outcome.done st3 ∧ st3.offset = st.offset
      ∧ st3.downstream = st.downstream ∧ st3.wrongHere = st.wrongHere := by
  have hnl1 : NL ∉ s.data.take size := fun hm => hnl (List.mem_of_mem_take hm)
  have hnl2 : NL ∉ s.data.drop size := fun hm => hnl (List.mem_of_mem_drop hm)
  obtain ⟨st2, h1, h2, _, h4, h5⟩ := scanChunk_no_newline (s.data.take size) st hnl1
  unfold loopTail
  rw [h1]
  simp only []
  by_cases hc : s.data.take size = []
  · rw [if_pos hc, finalWrite_empty st2 (by rw [h2]; exact hs)]
    exact ⟨st2, rfl, h2, h4, h5⟩
  · rw [if_neg hc]
    have hd := drop_length_lt size s.data hc
    obtain ⟨st3, e1, e2, e3, e4⟩ := ih { s with data := s.data.drop size } st2
      (by rw [h2]; exact hs) hnl2 (by simp only []; omega)
    exact ⟨st3, e1, by rw [e2, h2], by rw [e3, h4], by rw [e4, h5]⟩

theorem scanLoop_quiet (size : Nat) (hsize : size < MINUS_ONE) (fuel : Nat) (s : Stream)
    (st : State) (hs : strlen st.offset = some 0) (hnl : NL ∉ s.data)
    (hfuel : s.data.length < fuel) :
    ∃ st3, scanLoop size fuel s st = Outcome.done st3 ∧ st3.offset = st.offset
      ∧ st3.downstream = st.downstream ∧ st3.wrongHere = st.wrongHere := by
  induction fuel generalizing s st with
  | zero => omega
  | succ k ih =>
    rw [scanLoop_step size k s st hsize, flushCheck_empty st hs]
    exact loopTail_quiet size k s st ih hs hnl (by omega)

theorem strlen_flush (st : State) (n : Nat) : strlen (flush st n).offset = some 0 := by
  simp [flush, List.replicate_succ, strlen]

/-- C18: right after a flush `strlen(offset)` is 0; and when the check fires
in an iteration from which on no `'\n'` is scanned, in particular in the
iteration whose read returns 0 bytes, the run reaches its end, the bytes written
by that flush are the last bytes of the output, no further flush happens, and
the write after the loop adds nothing. -/
theorem no_double_write (size fuel : Nat) (s : Stream) (st : State) (n : Nat)
    (hsize : size < MINUS_ONE) (hs : strlen st.offset = some n) (hn : THRESH < n)
    (hnl : NL ∉ s.data) (hfuel : s.data.length ≤ fuel) :
    strlen (flush st n).offset = some 0
      ∧ ∃ st2, scanLoop size (fuel + 1) s st = Outcome.done st2
          ∧ st2.downstream = st.downstream ++ st.offset.take n
          ∧ st2.wrongHere = st.wrongHere + 1
          ∧ strlen st2.offset = some 0 := by
  have hc : flushCheck st = .ok (flush st n) := by
    unfold flushCheck
    rw [hs]
    simp only []
    rw [if_pos hn]
  refine ⟨strlen_flush st n, ?_⟩
  rw [scanLoop_step size fuel s st hsize, hc]
  obtain ⟨st3, e1, e2, e3, e4⟩ := loopTail_quiet size fuel s (flush st n)
    (fun s2 st2 h2 hnl2 hf2 => scanLoop_quiet size hsize fuel s2 st2 h2 hnl2 hf2)
    (strlen_flush st n) hnl hfuel
  exact ⟨st3, e1, by rw [e3]; rfl, by rw [e4]; rfl, by rw [e2]; exact strlen_flush st n⟩

theorem staleHead_state_strlen :
    strlen (cleanState (emitted 0 staleHead) 2457600 [] 0).offset = some 9999992 := by
  have := strlen_clean _ (emitted_nonzero 0 staleHead)
    (by rw [staleHead_emitted_length]; decide)
  rw [staleHead_emitted_length] at this
  rw [cleanState, staleHead_emitted_length]
  exact this

theorem no_double_write_witness :
    SIZE < MINUS_ONE
      ∧ strlen (cleanState (emitted 0 staleHead) 2457600 [] 0).offset = some 9999992
      ∧ THRESH < 9999992 ∧ NL ∉ ([] : List Nat) ∧ ([] : List Nat).length ≤ 0
      ∧ strlen (flush (cleanState (emitted 0 staleHead) 2457600 [] 0) 9999992).offset = some 0
      ∧ ∃ st2, scanLoop SIZE (0 + 1) { data := [], broken := false }
            (cleanState (emitted 0 staleHead) 2457600 [] 0) = Outcome.done st2
          ∧ st2.downstream = (cleanState (emitted 0 staleHead) 2457600 [] 0).downstream
              ++ (cleanState (emitted 0 staleHead) 2457600 [] 0).offset.take 9999992
          ∧ st2.wrongHere = (cleanState (emitted 0 staleHead) 2457600 [] 0).wrongHere + 1
          ∧ strlen st2.offset = some 0 :=
  ⟨SIZE_lt, staleHead_state_strlen, by decide, by simp, by simp,
    no_double_write SIZE 0 { data := [], broken := false }
      (cleanState (emitted 0 staleHead) 2457600 [] 0) 9999992 SIZE_lt staleHead_state_strlen
      (by decide) (by simp) (by simp)⟩

/-! ## The buffer before the first flush -/

theorem iterChunks_wrongHere (cs : List (List Nat)) (st st2 : State)
    (h : iterChunks cs st = .ok st2) : st.wrongHere ≤ st2.wrongHere := by
  induction cs generalizing st with
  | nil =>
    simp only [iterChunks] at h
    cases h
    exact Nat.le_refl _
  | cons c cs ih =>
    rw [iterChunks] at h
    split at h
    · cases h
    · rename_i st1 h1
      split at h
      · cases h
      · rename_i st3 h3
        have e1 := flushCheck_wrongHere st st1 h1
        have e2 := scanChunk_wrongHere c st1 st3 h3
        have e3 := ih st3 h
        omega

theorem clean_step (a txt : List Nat) (f : Nat) (out : List Nat) (w : Nat) (st1 st2 : State)
    (hnz : ∀ b ∈ txt, b ≠ 0) (hcap : txt.length ≤ CAP) (hf : f < 2 ^ 64)
    (hflush : flushCheck (cleanState txt f out w) = .ok st1)
    (hscan : scanChunk a st1 = .ok st2) (hno : st2.wrongHere ≤ w) :
    st2 = cleanState (txt ++ emitted f a) ((f + a.length) % 2 ^ 64) out w
      ∧ txt.length + (emitted f a).length ≤ CAP := by
  by_cases hthr : txt.length ≤ THRESH
  · rw [flushCheck_clean txt f out w hnz hthr] at hflush
    cases hflush
    rw [scanChunk_clean a txt f out w hcap hf] at hscan
    by_cases hfit : txt.length + (emitted f a).length ≤ CAP
    · rw [if_pos hfit] at hscan
      cases hscan
      exact ⟨rfl, hfit⟩
    · rw [if_neg hfit] at hscan
      cases hscan
  · by_cases hfull : txt.length = CAP
    · rw [flushCheck_clean_full txt f out w hnz hfull] at hflush
      cases hflush
    · rw [flushCheck_clean_flush txt f out w hnz (by omega) (by omega)] at hflush
      cases hflush
      have := scanChunk_wrongHere a _ st2 hscan
      simp only [flush, cleanState] at this
      omega

theorem iterChunks_clean (cs : List (List Nat)) (txt : List Nat) (f : Nat) (out : List Nat)
    (w : Nat) (st2 : State) (hnz : ∀ b ∈ txt, b ≠ 0) (hcap : txt.length ≤ CAP)
    (hf : f < 2 ^ 64) (hiter : iterChunks cs (cleanState txt f out w) = .ok st2)
    (hno : st2.wrongHere ≤ w) :
    st2 = cleanState (txt ++ emitted f cs.flatten) ((f + cs.flatten.length) % 2 ^ 64) out w
      ∧ txt.length + (emitted f cs.flatten).length ≤ CAP := by
  induction cs generalizing txt f with
  | nil =>
    simp only [iterChunks] at hiter
    cases hiter
    have hf2 : f % 2 ^ 64 = f := Nat.mod_eq_of_lt hf
    rw [List.flatten_nil, emitted_nil, List.append_nil, List.length_nil, Nat.add_zero, hf2]
    exact ⟨rfl, hcap⟩
  | cons c cs ih =>
    rw [iterChunks] at hiter
    split at hiter
    · cases hiter
    · rename_i st1 h1
      split at hiter
      · cases hiter
      · rename_i st3 h3
        have e3 := iterChunks_wrongHere cs st3 st2 hiter
        obtain ⟨hst3, hfit⟩ := clean_step c txt f out w st1 st3 hnz hcap hf h1 h3 (by omega)
        subst hst3
        have hnz2 : ∀ b ∈ txt ++ emitted f c, b ≠ 0 := by
          intro b hb
          rcases List.mem_append.1 hb with hb | hb
          · exact hnz b hb
          · exact emitted_nonzero _ _ b hb
        obtain ⟨hst2, hfit2⟩ := ih (txt ++ emitted f c) ((f + c.length) % 2 ^ 64) hnz2
          (by rw [List.length_append]; exact hfit) (Nat.mod_lt _ (by decide)) hiter
        have hsplit : emitted f (c ++ cs.flatten)
            = emitted f c ++ emitted ((f + c.length) % 2 ^ 64) cs.flatten :=
          emitted_append f c _ hf
        rw [List.flatten_cons, hsplit, hst2, mod_add_mod_64, List.length_append,
          List.append_assoc]
        refine ⟨rfl, ?_⟩
        rw [List.length_append] at hfit2 ⊢
        omega

theorem indexFrom_bytes (f : Nat) (l : List Nat) :
    ∀ b ∈ indexFrom f l, b = COMMA ∨ (48 ≤ b ∧ b ≤ 57) := by
  induction l generalizing f with
  | nil => simp [indexFrom]
  | cons x xs ih =>
    intro b hb
    rw [indexFrom] at hb
    rcases List.mem_append.1 hb with hb | hb
    · split at hb
      · rcases List.mem_append.1 hb with hb | hb
        · exact Or.inr (decimal_digits _ b hb)
        · exact Or.inl (by simpa using hb)
      · simp at hb
    · exact ih _ b hb

theorem cleanState_take (txt : List Nat) (f : Nat) (out : List Nat) (w : Nat) :
    (cleanState txt f out w).offset.take (cleanState txt f out w).mover = txt := by
  simp only [cleanState]
  exact List.take_left' rfl

theorem cleanState_drop (txt : List Nat) (f : Nat) (out : List Nat) (w : Nat) :
    (cleanState txt f out w).offset.drop (cleanState txt f out w).mover
      = List.replicate (CAP - (cleanState txt f out w).mover) 0 := by
  simp only [cleanState]
  exact List.drop_left' rfl

/-- C19, amended: take a state reached from the start of the run by any number
of iterations of the loop and the scan of some first bytes `a` of the next
chunk, with no flush so far and with the write cursor still inside the buffer
(at least one byte of the buffer is free), on an input below `2 ^ 63` bytes.
Then the bytes in front of `mover` are the text appended so far, digits and
commas only; every byte from `mover` to the end of the buffer is zero; and
`strlen(offset)` is the distance of `mover` from the buffer start, the number of
bytes appended so far. -/
theorem clean_before_first_flush (cs : List (List Nat)) (a : List Nat) (st st1 st2 : State)
    (hiter : iterChunks cs State.init = .ok st) (hflush : flushCheck st = .ok st1)
    (hscan : scanChunk a st1 = .ok st2) (hno : st2.wrongHere = 0)
    (hroom : st2.mover < CAP) (hlen : (cs.flatten ++ a).length < 2 ^ 63) :
    st2.offset.take st2.mover = indexText (cs.flatten ++ a)
      ∧ (∀ b ∈ st2.offset.take st2.mover, b = COMMA ∨ (48 ≤ b ∧ b ≤ 57))
      ∧ st2.offset.drop st2.mover = List.replicate (CAP - st2.mover) 0
      ∧ st2.offset.length = CAP
      ∧ strlen st2.offset = some st2.mover
      ∧ st2.mover = (indexText (cs.flatten ++ a)).length := by
  have e1 := flushCheck_wrongHere st st1 hflush
  have e2 := scanChunk_wrongHere a st1 st2 hscan
  rw [init_clean] at hiter
  obtain ⟨hst, hfit⟩ := iterChunks_clean cs [] 0 [] 0 st (by simp) (by simp) (by decide) hiter
    (by omega)
  simp only [List.nil_append, Nat.zero_add, List.length_nil] at hst hfit
  subst hst
  obtain ⟨hst2, hfit2⟩ := clean_step a _ _ [] 0 st1 st2 (emitted_nonzero 0 _) hfit
    (Nat.mod_lt _ (by decide)) hflush hscan (by omega)
  have hl1 : cs.flatten.length < 2 ^ 64 := by
    rw [List.length_append] at hlen
    omega
  have hsplit : emitted 0 (cs.flatten ++ a)
      = emitted 0 cs.flatten ++ emitted (cs.flatten.length % 2 ^ 64) a := by
    rw [emitted_append 0 _ a (by decide), Nat.zero_add]
  rw [← hsplit, emitted_eq_indexText _ hlen] at hst2
  subst hst2
  have hmover : (cleanState (indexText (cs.flatten ++ a))
      ((cs.flatten.length % 2 ^ 64 + a.length) % 2 ^ 64) [] 0).mover
        = (indexText (cs.flatten ++ a)).length := rfl
  have hnz : ∀ b ∈ indexText (cs.flatten ++ a), b ≠ 0 := by
    intro b hb
    rcases indexFrom_bytes 0 _ b hb with h | h
    · rw [h]
      decide
    · omega
  rw [hmover] at hroom
  refine ⟨cleanState_take _ _ _ _, ?_, cleanState_drop _ _ _ _,
    cleanState_length _ _ _ _ (by omega), strlen_clean _ hnz hroom, rfl⟩
  rw [cleanState_take]
  exact indexFrom_bytes 0 _

theorem flushCheck_init : flushCheck State.init = .ok State.init := by
  rw [init_clean]
  exact flushCheck_clean [] 0 [] 0 (by simp) (by decide)

theorem scanChunk_init_two : scanChunk [65, NL] State.init = .ok twoByteState := by
  have he : emitted 0 [65, NL] = [50, 44] := by decide
  rw [init_clean, scanChunk_clean [65, NL] [] 0 [] 0 (by decide) (by decide), he,
    if_pos (by decide)]
  rfl

theorem clean_before_first_flush_witness :
    iterChunks [] State.init = .ok State.init
      ∧ flushCheck State.init = .ok State.init
      ∧ scanChunk [65, NL] State.init = .ok twoByteState
      ∧ twoByteState.wrongHere = 0 ∧ twoByteState.mover < CAP
      ∧ (([] : List (List Nat)).flatten ++ [65, NL]).length < 2 ^ 63
      ∧ twoByteState.offset.take twoByteState.mover
          = indexText (([] : List (List Nat)).flatten ++ [65, NL])
      ∧ (∀ b ∈ twoByteState.offset.take twoByteState.mover, b = COMMA ∨ (48 ≤ b ∧ b ≤ 57))
      ∧ twoByteState.offset.drop twoByteState.mover
          = List.replicate (CAP - twoByteState.mover) 0
      ∧ twoByteState.offset.length = CAP
      ∧ strlen twoByteState.offset = some twoByteState.mover
      ∧ twoByteState.mover = (indexText (([] : List (List Nat)).flatten ++ [65, NL])).length :=
  ⟨rfl, flushCheck_init, scanChunk_init_two, rfl, by decide, by decide,
    clean_before_first_flush [] [65, NL] State.init State.init twoByteState rfl flushCheck_init
      scanChunk_init_two rfl (by decide) (by decide)⟩

theorem run_clean_partial (size : Nat) (hsize : size < MINUS_ONE) (c : List Nat) (br : Bool)
    (txt : List Nat) (f : Nat) (out : List Nat) (w : Nat) (hnz : ∀ b ∈ txt, b ≠ 0)
    (hf : f < 2 ^ 64) (hc : c.length ≤ size) (hne : c ≠ []) (hthr : txt.length ≤ THRESH)
    (hfit : txt.length + (emitted f c).length ≤ CAP) :
    run size { data := c, broken := br } (cleanState txt f out w) =
      run size { data := [], broken := br }
        (cleanState (txt ++ emitted f c) ((f + c.length) % 2 ^ 64) out w) := by
  have hT : THRESH < CAP := by decide
  have htake : c.take size = c := List.take_of_length_le hc
  have hdrop : c.drop size = [] := List.drop_eq_nil_of_le hc
  rw [run_step size hsize, flushCheck_clean txt f out w hnz hthr]
  simp only [htake, hdrop]
  rw [scanChunk_clean _ txt f out w (by omega) hf, if_pos hfit]
  simp only []
  rw [if_neg hne]

theorem fullInput_split :
    fullInput
      = (List.replicate 1024000 65 ++ List.replicate 1228800 NL) ++ List.replicate 21200 NL := by
  rw [fullInput, show (1250000 : Nat) = 1228800 + 21200 from rfl, List.replicate_add,
    List.append_assoc]

theorem fullInput_emitted_length : (emitted 0 fullInput).length = 10000000 := by
  rw [fullInput, emitted_pad 0 _ _ (by decide),
    emitted_newlines_length 6 1250000 _ (by decide) (by norm_num) (by norm_num)]

/-- C19, as stated, fails: in the run on `fullInput` there is no flush and every
append stays inside the index buffer, and at the chunk boundary after the
twelfth chunk the 10,000,000 bytes of the buffer are all text; no zero byte is
left, `strlen(offset)` has no value inside the buffer, and the check of the next
iteration reads past its end. -/
theorem full_buffer_has_no_terminator :
    offset_collector (Sys.file fullInput)
        = run SIZE { data := [], broken := false } (cleanState (emitted 0 fullInput) 2274000 [] 0)
      ∧ (cleanState (emitted 0 fullInput) 2274000 [] 0).mover = CAP
      ∧ (cleanState (emitted 0 fullInput) 2274000 [] 0).offset.length = CAP
      ∧ strlen (cleanState (emitted 0 fullInput) 2274000 [] 0).offset = none
      ∧ offset_collector (Sys.file fullInput) = Outcome.fault Fault.overread := by
  have hA : (emitted 0 (List.replicate 1024000 65 ++ List.replicate 1228800 NL)).length
      = 9830400 := by
    rw [emitted_pad 0 _ _ (by decide),
      emitted_newlines_length 6 1228800 _ (by decide) (by norm_num) (by norm_num)]
  have hB : (emitted 2252800 (List.replicate 21200 NL)).length = 169600 := by
    rw [emitted_newlines_length 6 21200 _ (by decide) (by norm_num) (by norm_num)]
  have hF := fullInput_emitted_length
  have hpl : (List.replicate 1024000 65 ++ List.replicate 1228800 NL).length = 2252800 := by
    rw [List.length_append, List.length_replicate, List.length_replicate]
  have hsplit : emitted 0 fullInput
      = emitted 0 (List.replicate 1024000 65 ++ List.replicate 1228800 NL)
          ++ emitted 2252800 (List.replicate 21200 NL) := by
    rw [fullInput_split, emitted_append 0 _ _ (by decide), hpl]
    rfl
  have hnz := emitted_nonzero 0 fullInput
  have h1 : offset_collector (Sys.file fullInput)
      = run SIZE { data := List.replicate 21200 NL, broken := false }
          (cleanState (emitted 0 (List.replicate 1024000 65 ++ List.replicate 1228800 NL))
            2252800 [] 0) := by
    rw [offset_collector, collectWith_file_run, init_clean, fullInput_split,
      run_clean_chunks SIZE SIZE_lt SIZE_pos 11 _ _ false [] 0 [] 0 (by simp) (by decide)
        (by rw [hpl]; rfl) (by rw [hA]; decide)]
    rw [List.nil_append, hpl]
    rfl
  have h2 := run_clean_partial SIZE SIZE_lt (List.replicate 21200 NL) false
    (emitted 0 (List.replicate 1024000 65 ++ List.replicate 1228800 NL)) 2252800 [] 0
    (emitted_nonzero 0 _) (by norm_num) (by rw [List.length_replicate]; decide)
    (by rw [show (21200 : Nat) = 21199 + 1 from rfl, List.replicate_succ]
        exact fun h => List.noConfusion h)
    (by rw [hA]; decide) (by rw [hA, hB]; decide)
  rw [← hsplit, List.length_replicate,
    show (2252800 + 21200) % 2 ^ 64 = 2274000 from rfl] at h2
  have hrun := h1.trans h2
  have hmover : (cleanState (emitted 0 fullInput) 2274000 [] 0).mover = CAP := by
    simp only [cleanState]
    exact hF
  refine ⟨hrun, hmover, cleanState_length _ _ _ _ (by rw [hF]; decide),
    strlen_full _ hnz hF, ?_⟩
  rw [hrun, run_step SIZE SIZE_lt, flushCheck_clean_full _ _ _ _ hnz hF]

/-! ## The index buffer as `malloc` returns it -/

theorem initOn_zero : State.initOn (List.replicate CAP 0) = State.init := rfl

theorem collectOn_zero (size : Nat) (sys : Sys) :
    collectOn (List.replicate CAP 0) size sys = collectWith size sys := rfl

theorem collectOn_file (block : List Nat) (size : Nat) (input : List Nat) :
    collectOn block size (Sys.file input)
      = scanLoop size (input.length + 1) { data := input, broken := false }
          (State.initOn block) := by
  simp [collectOn, Sys.file]

theorem flushCheck_below (st : State) (n : Nat) (hs : strlen st.offset = some n)
    (hn : n ≤ THRESH) : flushCheck st = .ok st := by
  unfold flushCheck
  rw [hs]
  simp only []
  rw [if_neg (by omega)]

theorem finalWrite_some (st : State) (n : Nat) (hs : strlen st.offset = some n) :
    finalWrite st = Outcome.done { st with downstream := st.downstream ++ st.offset.take n } := by
  unfold finalWrite
  rw [hs]

/-- A run that scans no byte `'\n'` from a state in which `strlen(offset)` is
`n`, not above the flush bound: no check fires, the buffer stays as it is, and
the write after the loop appends its first `n` bytes to the output. -/
theorem scanLoop_still (size : Nat) (hsize : size < MINUS_ONE) (fuel : Nat) (s : Stream)
    (st : State) (n : Nat) (hs : strlen st.offset = some n) (hn : n ≤ THRESH)
    (hnl : NL ∉ s.data) (hfuel : s.data.length < fuel) :
    ∃ st3, scanLoop size fuel s st = Outcome.done st3 ∧ st3.offset = st.offset
      ∧ st3.downstream = st.downstream ++ st.offset.take n
      ∧ st3.wrongHere = st.wrongHere := by
  induction fuel generalizing s st with
  | zero => omega
  | succ k ih =>
    have hnl1 : NL ∉ s.data.take size := fun hm => hnl (List.mem_of_mem_take hm)
    have hnl2 : NL ∉ s.data.drop size := fun hm => hnl (List.mem_of_mem_drop hm)
    obtain ⟨st2, h1, h2, _, h4, h5⟩ := scanChunk_no_newline (s.data.take size) st hnl1
    rw [scanLoop_step size k s st hsize, flushCheck_below st n hs hn]
    simp only [loopTail]
    rw [h1]
    simp only []
    by_cases hc : s.data.take size = []
    · rw [if_pos hc, finalWrite_some st2 n (by rw [h2]; exact hs)]
      exact ⟨_, rfl, h2, by simp only [h2, h4], h5⟩
    · rw [if_neg hc]
      have hd := drop_length_lt size s.data hc
      obtain ⟨st3, e1, e2, e3, e4⟩ := ih { s with data := s.data.drop size } st2
        (by rw [h2]; exact hs) hnl2 (by simp only []; omega)
      exact ⟨st3, e1, by rw [e2, h2], by rw [e3, h2, h4], by rw [e4, h5]⟩

/-- On an input without a byte `'\n'` the output file holds the C string that
the block returned by `malloc` happens to hold, when that string has at most
9,999,990 bytes. -/
theorem collectOn_no_newline (block : List Nat) (size : Nat) (input : List Nat) (n : Nat)
    (hsize : size < MINUS_ONE) (hs : strlen block = some n) (hn : n ≤ THRESH)
    (hnl : NL ∉ input) :
    ∃ st, collectOn block size (Sys.file input) = Outcome.done st
      ∧ st.downstream = block.take n ∧ st.offset = block ∧ st.wrongHere = 0 := by
  rw [collectOn_file]
  obtain ⟨st3, e1, e2, e3, e4⟩ := scanLoop_still size hsize (input.length + 1)
    { data := input, broken := false } (State.initOn block) n hs hn hnl (by simp)
  exact ⟨st3, e1, by rw [e3]; rfl, e2, e4⟩

theorem usedBlock_strlen : strlen usedBlock = some 2 := by
  rw [usedBlock, show CAP - 2 = 9999997 + 1 from rfl, List.replicate_succ]
  exact strlen_append_zero [55, 44] _ (by decide)

theorem usedBlock_take : usedBlock.take 2 = [55, 44] :=
  take_clean [55, 44] (CAP - 2)

theorem fullBlock_strlen : strlen fullBlock = none := by
  apply strlen_nonzero
  intro b hb
  rw [fullBlock] at hb
  rw [(List.mem_replicate.1 hb).2]
  decide

/-- A block without a zero byte: the first check reads past its end. -/
theorem collectOn_unterminated (block : List Nat) (size : Nat) (hsize : size < MINUS_ONE)
    (input : List Nat) (hs : strlen block = none) :
    collectOn block size (Sys.file input) = Outcome.fault Fault.overread := by
  rw [collectOn_file, scanLoop_step size _ _ _ hsize]
  unfold flushCheck
  simp only [State.initOn, hs]

/-- C8 (the index buffer is never initialised): the input `ABCDEFG` holds no
byte `'\n'`; when the block of 10,000,000 bytes returned by `malloc` holds the
text `7,` from an earlier use, the run on `ABCDEFG` and the run on the empty
file both write `7,` to the output file; on a block without a zero byte the
first `strlen(offset)` reads past the end of the allocation; on a zero-filled
block the output is empty; and a flush, unlike the allocation, leaves
`strlen(offset)` at 0. -/
theorem no_newline_output_is_old_memory :
    NL ∉ ([65, 66, 67, 68, 69, 70, 71] : List Nat)
      ∧ usedBlock.length = CAP
      ∧ (collectOn usedBlock SIZE (Sys.file [65, 66, 67, 68, 69, 70, 71])).output
          = some [55, 44]
      ∧ (collectOn usedBlock SIZE (Sys.file [])).output = some [55, 44]
      ∧ fullBlock.length = CAP
      ∧ collectOn fullBlock SIZE (Sys.file []) = Outcome.fault Fault.overread
      ∧ (collectOn (List.replicate CAP 0) SIZE (Sys.file [65, 66, 67, 68, 69, 70, 71])).output
          = some []
      ∧ (∀ (st : State) (n : Nat), strlen (flush st n).offset = some 0) := by
  have hnl : NL ∉ ([65, 66, 67, 68, 69, 70, 71] : List Nat) := by decide
  have hused : ∀ input : List Nat, NL ∉ input →
      (collectOn usedBlock SIZE (Sys.file input)).output = some [55, 44] := by
    intro input h
    obtain ⟨st, e1, e2, _, _⟩ := collectOn_no_newline usedBlock SIZE input 2 SIZE_lt
      usedBlock_strlen (by decide) h
    rw [e1, Outcome.output, e2, usedBlock_take]
  refine ⟨hnl, ?_, hused _ hnl, hused [] (by simp), ?_,
    collectOn_unterminated fullBlock SIZE SIZE_lt [] fullBlock_strlen, ?_, strlen_flush⟩
  · rw [usedBlock, List.length_append, List.length_replicate]
    rfl
  · rw [fullBlock, List.length_replicate]
  · obtain ⟨st, e1, e2, _⟩ := no_newline_empty_output [65, 66, 67, 68, 69, 70, 71] hnl
    rw [collectOn_zero, ← offset_collector, e1, Outcome.output, e2]

/-! ## Runs in which no check fires -/

theorem chunksOf_nil (size fuel : Nat) : chunksOf size fuel [] = [] := by
  cases fuel with
  | zero => rfl
  | succ k =>
    rw [chunksOf, List.take_nil, if_pos rfl]

theorem chunksOf_flatten (size : Nat) (hpos : 0 < size) (cs : List (List Nat)) (fuel : Nat)
    (rest : List Nat) (h : ∀ c ∈ cs, c.length = size) :
    chunksOf size (cs.length + fuel) (cs.flatten ++ rest) = cs ++ chunksOf size fuel rest := by
  induction cs with
  | nil =>
    rw [List.length_nil, Nat.zero_add, List.flatten_nil, List.nil_append, List.nil_append]
  | cons c cs ih =>
    have hc : c.length = size := h c (List.mem_cons_self _ _)
    have hne : c ≠ [] := by
      intro h0
      rw [h0] at hc
      simp at hc
      omega
    have htake : (c ++ (cs.flatten ++ rest)).take size = c := by
      rw [← hc]
      exact List.take_left' rfl
    have hdrop : (c ++ (cs.flatten ++ rest)).drop size = cs.flatten ++ rest := by
      rw [← hc]
      exact List.drop_left' rfl
    rw [List.length_cons, show cs.length + 1 + fuel = (cs.length + fuel) + 1 by omega,
      List.flatten_cons, List.append_assoc, chunksOf, htake, hdrop, if_neg hne,
      ih (fun d hd => h d (List.mem_cons_of_mem _ hd)), List.cons_append]

/-- Iterations over chunks whose entries leave the text in the index buffer
at or below the flush bound: no check fires, and the buffer holds the entries
of all the chunks. -/
theorem iterChunks_clean_ok (cs : List (List Nat)) (txt : List Nat) (f : Nat) (out : List Nat)
    (w : Nat) (hnz : ∀ b ∈ txt, b ≠ 0) (hf : f < 2 ^ 64)
    (hfit : txt.length + (emitted f cs.flatten).length ≤ THRESH) :
    iterChunks cs (cleanState txt f out w)
      = .ok (cleanState (txt ++ emitted f cs.flatten) ((f + cs.flatten.length) % 2 ^ 64)
          out w) := by
  induction cs generalizing txt f with
  | nil =>
    have hf2 : f % 2 ^ 64 = f := Nat.mod_eq_of_lt hf
    rw [iterChunks, List.flatten_nil, emitted_nil, List.append_nil, List.length_nil,
      Nat.add_zero, hf2]
  | cons c cs ih =>
    have hT : THRESH < CAP := by decide
    have hsplit : emitted f (c ++ cs.flatten)
        = emitted f c ++ emitted ((f + c.length) % 2 ^ 64) cs.flatten :=
      emitted_append f c _ hf
    have hnz2 : ∀ b ∈ txt ++ emitted f c, b ≠ 0 := by
      intro b hb
      rcases List.mem_append.1 hb with hb | hb
      · exact hnz b hb
      · exact emitted_nonzero _ _ b hb
    rw [List.flatten_cons, hsplit, List.length_append] at hfit
    rw [iterChunks, flushCheck_clean txt f out w hnz (by omega)]
    simp only []
    rw [scanChunk_clean c txt f out w (by omega) hf, if_pos (by omega)]
    simp only []
    rw [ih (txt ++ emitted f c) ((f + c.length) % 2 ^ 64) hnz2 (Nat.mod_lt _ (by decide))
      (by rw [List.length_append]; omega)]
    rw [List.flatten_cons, hsplit, mod_add_mod_64, List.length_append, List.append_assoc]

theorem emitted_prefix_length (f : Nat) (a b : List Nat) (hf : f < 2 ^ 64) :
    (emitted f a).length ≤ (emitted f (a ++ b)).length := by
  rw [emitted_append f a b hf, List.length_append]
  omega

theorem overrunChunks_flatten :
    overrunChunks.flatten = List.replicate 1024000 65 ++ List.replicate 1228800 NL := by
  rw [overrunChunks, List.flatten_append, List.flatten_replicate_replicate,
    List.flatten_replicate_replicate]
  rfl

theorem overrunChunks_sizes : ∀ c ∈ overrunChunks ++ [List.replicate SIZE NL], c.length = SIZE := by
  intro c hc
  rw [overrunChunks] at hc
  rcases List.mem_append.1 hc with h | h
  · rcases List.mem_append.1 h with h | h
    · rw [(List.mem_replicate.1 h).2, List.length_replicate]
    · rw [(List.mem_replicate.1 h).2, List.length_replicate]
  · rw [List.mem_singleton.1 h, List.length_replicate]

theorem overrunHead_emitted_length :
    (emitted 0 (List.replicate 1024000 65 ++ List.replicate 1228800 NL)).length = 9830400 := by
  rw [emitted_pad 0 _ _ (by decide),
    emitted_newlines_length 6 1228800 _ (by decide) (by norm_num) (by norm_num)]

theorem overrunInput_chunks :
    chunksOf SIZE (overrunInput.length + 1) overrunInput
      = overrunChunks ++ [List.replicate SIZE NL] := by
  have hfl : (overrunChunks ++ [List.replicate SIZE NL]).flatten ++ [] = overrunInput := by
    rw [List.append_nil, List.flatten_append, overrunChunks_flatten, List.flatten_cons,
      List.flatten_nil, List.append_nil, overrunInput_split]
    rfl
  have hlen : (overrunChunks ++ [List.replicate SIZE NL]).length + 2457589
      = overrunInput.length + 1 := by
    rw [overrunInput, overrunChunks, List.length_append, List.length_append,
      List.length_append, List.length_replicate, List.length_replicate, List.length_replicate,
      List.length_replicate, List.length_singleton]
  have h := chunksOf_flatten SIZE SIZE_pos (overrunChunks ++ [List.replicate SIZE NL]) 2457589 []
    overrunChunks_sizes
  rw [hfl, hlen, chunksOf_nil, List.append_nil] at h
  exact h

theorem overrunState_reached : iterChunks overrunChunks State.init = .ok overrunState := by
  have h := iterChunks_clean_ok overrunChunks [] 0 [] 0 (fun b hb => nomatch hb) (by decide)
    (by rw [overrunChunks_flatten, overrunHead_emitted_length]; decide)
  rw [overrunChunks_flatten, List.nil_append, List.length_append, List.length_replicate,
    List.length_replicate] at h
  rw [init_clean, h, overrunState]
  rfl

theorem overrunState_strlen : strlen overrunState.offset = some 9830400 := by
  have := strlen_clean _ (emitted_nonzero 0 (List.replicate 1024000 65 ++ List.replicate 1228800 NL))
    (by rw [overrunHead_emitted_length]; decide)
  rw [overrunHead_emitted_length] at this
  rw [overrunState, cleanState, overrunHead_emitted_length]
  exact this

theorem overrunState_scan :
    scanChunk (List.replicate SIZE NL) overrunState = .error Fault.overrun := by
  have h2 : (emitted 2252800 (List.replicate SIZE NL)).length = 1638400 :=
    emitted_newlines_length 6 SIZE _ (by decide) (by norm_num) (by decide)
  rw [overrunState, scanChunk_clean _ _ _ _ _ (by rw [overrunHead_emitted_length]; decide)
    (by norm_num), overrunHead_emitted_length, h2, if_neg (by decide)]

/-- At the head of each of the twelve iterations of the run on `overrunInput`
the text in the index buffer is not above the flush bound. -/
theorem overrunChunks_check (k : Nat) :
    ∃ st n, iterChunks (overrunChunks.take k) State.init = .ok st
      ∧ strlen st.offset = some n ∧ n ≤ THRESH ∧ flushCheck st = .ok st
      ∧ st.wrongHere = 0 := by
  have hpre : (emitted 0 (overrunChunks.take k).flatten).length ≤ 9830400 := by
    have h := emitted_prefix_length 0 (overrunChunks.take k).flatten
      (overrunChunks.drop k).flatten (by decide)
    rw [← List.flatten_append, List.take_append_drop, overrunChunks_flatten,
      overrunHead_emitted_length] at h
    exact h
  have hthr : (emitted 0 (overrunChunks.take k).flatten).length ≤ THRESH :=
    le_trans hpre (by decide)
  have hT : THRESH < CAP := by decide
  have hit := iterChunks_clean_ok (overrunChunks.take k) [] 0 [] 0 (fun b hb => nomatch hb)
    (by decide) (by rw [List.length_nil, Nat.zero_add]; exact hthr)
  rw [List.nil_append] at hit
  rw [init_clean]
  refine ⟨_, (emitted 0 (overrunChunks.take k).flatten).length, hit, ?_, hthr,
    flushCheck_clean _ _ _ _ (emitted_nonzero 0 _) hthr, rfl⟩
  simp only [cleanState]
  exact strlen_clean _ (emitted_nonzero 0 _) (by omega)

/-- C6 (defect of the flush check, and the index buffer is never initialised):
`fread` delivers `overrunInput` in twelve chunks; at the head of each of the
twelve iterations the text in the index buffer is not above the flush bound, so
the check `strlen(offset) > 9999990` is false at every chunk and no flush
happens; the twelfth chunk writes past the end of the index buffer, the run has
no end-of-stream write, and the output is not the index.  And on the file
`"A\n"`, when the block returned by `malloc` holds the text `7,` from its third
byte on, no check fires and the end-of-stream write emits `2,7,`, while the
index is `2,`. -/
theorem no_flush_output_not_index :
    chunksOf SIZE (overrunInput.length + 1) overrunInput
        = overrunChunks ++ [List.replicate SIZE NL]
      ∧ (∀ k, ∃ st n, iterChunks (overrunChunks.take k) State.init = .ok st
            ∧ strlen st.offset = some n ∧ n ≤ THRESH ∧ flushCheck st = .ok st
            ∧ st.wrongHere = 0)
      ∧ iterChunks overrunChunks State.init = .ok overrunState
      ∧ strlen overrunState.offset = some 9830400
      ∧ scanChunk (List.replicate SIZE NL) overrunState = .error Fault.overrun
      ∧ offset_collector (Sys.file overrunInput) = Outcome.fault Fault.overrun
      ∧ (offset_collector (Sys.file overrunInput)).output ≠ some (indexText overrunInput)
      ∧ gapBlock.length = CAP
      ∧ (collectOn gapBlock SIZE (Sys.file [65, NL])).flushes = some 0
      ∧ (collectOn gapBlock SIZE (Sys.file [65, NL])).output = some [50, 44, 55, 44]
      ∧ indexText [65, NL] = [50, 44] := by
  refine ⟨overrunInput_chunks, overrunChunks_check, overrunState_reached, overrunState_strlen,
    overrunState_scan, overrunInput_run, ?_, ?_, ?_, ?_, ?_⟩
  · rw [overrunInput_run]
    intro h
    cases h
  · rw [gapBlock, List.length_append, List.length_replicate]
    rfl
  · set_option maxRecDepth 100000 in decide
  · set_option maxRecDepth 100000 in decide
  · decide

end OffsetExtractor
